import Mathlib

/-!
# Model Predictive Control: the problem definition of `MPC.cpp` and `main.cpp`

A shallow embedding of the decision-vector layout, of `FG_eval::operator()`,
of `MPC::Solve`, and of `main.cpp`: the coordinate transforms, `hasData`,
`polyeval`, `polyfit` and the handling of one telemetry message.

Conventions of the embedding.

* `double` is a linearly ordered field `α` with a floor function (`ℚ` to
  evaluate, `ℝ` in the theorems).  The functions of `<math.h>` that the
  program calls (`cos`, `sin`, `atan`) and the constant `M_PI` are arguments of
  the definitions that use them; the theorems pass `Real.cos`, `Real.sin`,
  `Real.arctan` and `Real.pi`.
* `size_t` is `Nat` modulo `2^64`.  The layout globals (`y_start`, ...,
  `a_start`) and `n_vars` are functions of the horizon length and carry the
  reduction; the code that runs at the program's `N = 15` indexes far below
  `2^64` and uses plain `Nat` arithmetic.
* A CppAD vector (`Dvector`, `ADvector`) is a function from its index to its
  entry; `v[i] = e` is `setAt v i e`.  `Eigen::VectorXd` and
  `std::vector<double>` are lists, read with `getD`.
* `for (int t = lo; t < hi; t++) body` is `forLoop lo hi body`.
* The two library calls are arguments: the solver `CppAD::ipopt::solve` of
  `MPC::Solve`, and the solve of Eigen's Householder QR decomposition of
  `polyfit`.  A failed `assert` is the result `none`.
-/

namespace MPC

/-! ## Machine integers and loops -/

/-- The assignment `v[i] = e` on a vector seen as a function of its index. -/
def setAt {β : Type} (v : Nat → β) (i : Nat) (e : β) : Nat → β :=
  fun j => if j = i then e else v j

/-- The loop `for (int t = lo; t < hi; t++) body`, threading the state. -/
def forLoop {σ : Type} (lo hi : Nat) (body : Nat → σ → σ) (s : σ) : σ :=
  (List.range' lo (hi - lo)).foldl (fun acc t => body t acc) s

/-! ## The layout of the decision vector (MPC.cpp, lines 9 and 39-46) -/

/-- The global `size_t N = 15`. -/
def N : Nat := 15

/-- The global `x_start = 0`, for horizon length `n`. -/
def x_start (_n : Nat) : Nat := 0

/-- The global `y_start = x_start + N`. -/
def y_start (n : Nat) : Nat := (x_start n + n) % 18446744073709551616

/-- The global `psi_start = y_start + N`. -/
def psi_start (n : Nat) : Nat := (y_start n + n) % 18446744073709551616

/-- The global `v_start = psi_start + N`. -/
def v_start (n : Nat) : Nat := (psi_start n + n) % 18446744073709551616

/-- The global `cte_start = v_start + N`. -/
def cte_start (n : Nat) : Nat := (v_start n + n) % 18446744073709551616

/-- The global `epsi_start = cte_start + N`. -/
def epsi_start (n : Nat) : Nat := (cte_start n + n) % 18446744073709551616

/-- The global `delta_start = epsi_start + N`. -/
def delta_start (n : Nat) : Nat := (epsi_start n + n) % 18446744073709551616

/-- The global `a_start = delta_start + N - 1`, that is `(delta_start + N) - 1`
in `size_t`. -/
def a_start (n : Nat) : Nat :=
  ((delta_start n + n) % 18446744073709551616 + 18446744073709551616 - 1)
    % 18446744073709551616

/-- The local `n_vars = N * 6 + (N - 1) * 2` of `MPC::Solve`, in `size_t`. -/
def n_vars (n : Nat) : Nat :=
  ((n * 6) % 18446744073709551616
    + (((n + 18446744073709551616 - 1) % 18446744073709551616) * 2) % 18446744073709551616)
    % 18446744073709551616

/-- The local `n_constraints = N * 6` of `MPC::Solve`, in `size_t`. -/
def n_constraints (n : Nat) : Nat := (n * 6) % 18446744073709551616

/-- The eight index ranges of the layout, in the order of the declarations:
six state blocks of `n` entries, then the steering and the acceleration block
of `n - 1` entries each. -/
def blocks (n : Nat) : List (Finset Nat) :=
  [Finset.Ico (x_start n) (x_start n + n),
   Finset.Ico (y_start n) (y_start n + n),
   Finset.Ico (psi_start n) (psi_start n + n),
   Finset.Ico (v_start n) (v_start n + n),
   Finset.Ico (cte_start n) (cte_start n + n),
   Finset.Ico (epsi_start n) (epsi_start n + n),
   Finset.Ico (delta_start n) (delta_start n + (n - 1)),
   Finset.Ico (a_start n) (a_start n + (n - 1))]

/-- Each range of the list starts where the one before it ends; the first
starts at `first` and the last ends at `last`. -/
def Contiguous : List (Finset Nat) → Nat → Nat → Prop
  | [], first, last => first = last
  | b :: bs, first, last =>
      ∃ len, b = Finset.Ico first (first + len) ∧ Contiguous bs (first + len) last

/-! ## Constants (MPC.cpp, lines 10-34) -/

section Definitions

variable {α : Type} [Field α]

/-- The global `double dt = 0.05`. -/
def dt (α : Type) [Field α] : α := 0.05

/-- The constant `const double Lf = 2.67`. -/
def Lf (α : Type) [Field α] : α := 2.67

/-- The global `double max_v = 100.0`. -/
def max_v (α : Type) [Field α] : α := 100.0

/-- The global `double min_v = 45.0`. -/
def min_v (α : Type) [Field α] : α := 45.0

/-- The global `double dec_factor = 2.0`. -/
def dec_factor (α : Type) [Field α] : α := 2.0

/-! ## `FG_eval::operator()` (MPC.cpp, lines 70-162)

The global `ref_v` is read by the cost; its value when the evaluator runs is
the argument `ref_v` (every call of `MPC::Solve` assigns it before the solver
is started). -/

/-- The body of the loop of lines 77-81: the part of the cost based on the
reference state. -/
def FG_eval.costReference (ref_v : α) (vars : Nat → α) (t : Nat) (fg : Nat → α) :
    Nat → α :=
  let fg := setAt fg 0 (fg 0 + (vars (cte_start N + t)) ^ 2)
  let fg := setAt fg 0 (fg 0 + (vars (epsi_start N + t)) ^ 2)
  setAt fg 0 (fg 0 + (vars (v_start N + t) - ref_v) ^ 2)

/-- The body of the loop of lines 85-88: the use of the actuators. -/
def FG_eval.costActuators (vars : Nat → α) (t : Nat) (fg : Nat → α) : Nat → α :=
  let fg := setAt fg 0 (fg 0 + 150 * (vars (delta_start N + t)) ^ 2)
  setAt fg 0 (fg 0 + (vars (a_start N + t)) ^ 2)

/-- The body of the loop of lines 91-94: the gap between sequential
actuations. -/
def FG_eval.costGap (vars : Nat → α) (t : Nat) (fg : Nat → α) : Nat → α :=
  let fg := setAt fg 0
    (fg 0 + 2000.0 * (vars (delta_start N + t + 1) - vars (delta_start N + t)) ^ 2)
  setAt fg 0 (fg 0 + (vars (a_start N + t + 1) - vars (a_start N + t)) ^ 2)

/-- The assignments of lines 107-112: the initial constraints. -/
def FG_eval.initial (vars : Nat → α) (fg : Nat → α) : Nat → α :=
  let fg := setAt fg (1 + x_start N) (vars (x_start N))
  let fg := setAt fg (1 + y_start N) (vars (y_start N))
  let fg := setAt fg (1 + psi_start N) (vars (psi_start N))
  let fg := setAt fg (1 + v_start N) (vars (v_start N))
  let fg := setAt fg (1 + cte_start N) (vars (cte_start N))
  setAt fg (1 + epsi_start N) (vars (epsi_start N))

/-- The body of the loop of lines 115-161: the constraints of step `t`.  The
locals `cte0`, `epsi0` and `f0` of the source are computed there and never
read; they are left out. -/
def FG_eval.constraints (cos sin atan : α → α) (coeffs : List α) (vars : Nat → α)
    (t : Nat) (fg : Nat → α) : Nat → α :=
  -- The state at time t+1.
  let x1 := vars (x_start N + t)
  let y1 := vars (y_start N + t)
  let psi1 := vars (psi_start N + t)
  let v1 := vars (v_start N + t)
  let cte1 := vars (cte_start N + t)
  let epsi1 := vars (epsi_start N + t)
  -- The state at time t.
  let x0 := vars (x_start N + t - 1)
  let y0 := vars (y_start N + t - 1)
  let psi0 := vars (psi_start N + t - 1)
  let v0 := vars (v_start N + t - 1)
  -- Only consider the actuation at time t.
  let delta0 := vars (delta_start N + t - 1)
  let a0 := vars (a_start N + t - 1)
  let x01 := x0 + v0 * cos psi0 * dt α
  let f1 := coeffs.getD 0 0 + coeffs.getD 1 0 * x01 + coeffs.getD 2 0 * x01 * x01
    + coeffs.getD 3 0 * x01 * x01 * x01
  let psides0 := atan (coeffs.getD 1 0 + coeffs.getD 2 0 * x0 + coeffs.getD 3 0 * x0 * x0)
  let fg := setAt fg (1 + x_start N + t) (x1 - (x0 + v0 * cos psi0 * dt α))
  let fg := setAt fg (1 + y_start N + t) (y1 - (y0 + v0 * sin psi0 * dt α))
  let fg := setAt fg (1 + psi_start N + t) (psi1 - (psi0 + v0 * delta0 / Lf α * dt α))
  let fg := setAt fg (1 + v_start N + t) (v1 - (v0 + a0 * dt α))
  let fg := setAt fg (1 + cte_start N + t) (cte1 - (f1 - (y0 + v0 * sin psi0 * dt α)))
  setAt fg (1 + epsi_start N + t) (epsi1 - ((psi0 - psides0) + v0 * delta0 / Lf α * dt α))

/-- The call operator `FG_eval::operator()(fg, vars)`: `fg` on entry is the
vector the solver passes in, the result is `fg` on exit.  Entry 0 is the cost,
entry `1 + i` is constraint `i`. -/
def FG_eval (cos sin atan : α → α) (coeffs : List α) (ref_v : α)
    (fg : Nat → α) (vars : Nat → α) : Nat → α :=
  let fg := setAt fg 0 0
  let fg := forLoop 0 N (FG_eval.costReference ref_v vars) fg
  let fg := forLoop 0 (N - 1) (FG_eval.costActuators vars) fg
  let fg := forLoop 0 (N - 2) (FG_eval.costGap vars) fg
  let fg := FG_eval.initial vars fg
  forLoop 1 N (FG_eval.constraints cos sin atan coeffs vars) fg

/-- A decision vector to evaluate the constraints at: the vehicle drives along
the x axis at the constant speed 2, so `x_t = t/10`, `v_t = 2`, and every
other entry is 0. -/
def straightVars : Nat → α :=
  fun i => if i < 15 then (i : α) / 10 else if 45 ≤ i ∧ i < 60 then 2 else 0

/-- A decision vector to evaluate the constraints of step 1 at, for a heading
of 1 radian whose cosine is `c` and whose sine is `s`: `x_0 = 1/2`, `y_0 = 3`,
`psi_0 = 1`, `v_0 = 2`, then `x_1 = x_0 + v_0*c*0.05` and `cte_1` the cubic
`1 + 2x + 3x^2 + 4x^3` at `x_1` less `y_0 + v_0*s*0.05`; every other entry is
0. -/
def movingVars (c s : α) : Nat → α :=
  fun i =>
    if i = 0 then 1 / 2
    else if i = 1 then 1 / 2 + 2 * c * 0.05
    else if i = 15 then 3
    else if i = 30 then 1
    else if i = 45 then 2
    else if i = 61 then
      (1 + 2 * (1 / 2 + 2 * c * 0.05) + 3 * (1 / 2 + 2 * c * 0.05) ^ 2
        + 4 * (1 / 2 + 2 * c * 0.05) ^ 3) - (3 + 2 * s * 0.05)
    else 0

end Definitions

/-! ## `MPC::Solve` (MPC.cpp, lines 172-307) -/

section Definitions

variable {α : Type} [LinearOrderedField α] [FloorRing α]

/-- The status of `CppAD::ipopt::solve_result`. -/
inductive status_type where
  | not_defined
  | success
  | maxiter_exceeded
  | stop_at_tiny_step
  | stop_at_acceptable_point
  | local_infeasibility
  | user_requested_stop
  | feasible_point_found
  | diverging_iterates
  | restoration_failure
  | error_in_step_computation
  | invalid_number_detected
  | too_few_degrees_of_freedom
  | internal_error
  | unknown
  deriving DecidableEq, Repr

/-- The fields of `CppAD::ipopt::solve_result<Dvector>` that the program
reads: the status, the solution vector and the objective value. -/
structure solve_result (α : Type) where
  status : status_type
  x : Nat → α
  obj_value : α

/-- The arguments of the call `CppAD::ipopt::solve(options, vars,
vars_lowerbound, vars_upperbound, constraints_lowerbound,
constraints_upperbound, fg_eval, solution)`, with the sizes of the vectors. -/
structure Problem (α : Type) where
  options : String
  n_vars : Nat
  n_constraints : Nat
  vars : Nat → α
  vars_lowerbound : Nat → α
  vars_upperbound : Nat → α
  constraints_lowerbound : Nat → α
  constraints_upperbound : Nat → α
  fg_eval : (Nat → α) → (Nat → α) → (Nat → α)

/-- What a call of `MPC::Solve` leaves behind: the global `ref_v`, the member
`solution`, and the returned vector. -/
structure SolveOut (α : Type) where
  ref_v : α
  solution : solve_result α
  ret : List α

/-- Lines 188-195: the speed regulator, the value assigned to the global
`ref_v`. -/
def Solve.ref_v (atan : α → α) (M_PI : α) (state coeffs : List α) : α :=
  let v := state.getD 3 0
  let lx := v * dt α * (N : α)
  let deriv := 3 * coeffs.getD 3 0 * lx * lx + 2 * coeffs.getD 2 0 * lx + coeffs.getD 1 0
  let psil := atan deriv
  (max_v α - min_v α) * (1 - |psil| * dec_factor α / M_PI) + min_v α

/-- Lines 178-279: the problem handed to the solver.  A vector that has just
been constructed is the zero vector; every entry below its size is assigned
before the solver reads it. -/
def Solve.problem (cos sin atan : α → α) (M_PI : α) (state coeffs : List α) : Problem α :=
  let x := state.getD 0 0
  let y := state.getD 1 0
  let psi := state.getD 2 0
  let v := state.getD 3 0
  let cte := state.getD 4 0
  let epsi := state.getD 5 0
  let ref_v := Solve.ref_v atan M_PI state coeffs
  let n_vars := n_vars N
  let n_constraints := n_constraints N
  -- Initial value of the independent variables.
  let vars : Nat → α := fun _ => 0
  let vars := forLoop 0 n_vars (fun i vars => setAt vars i 0.0) vars
  let vars := setAt vars (x_start N) x
  let vars := setAt vars (y_start N) y
  let vars := setAt vars (psi_start N) psi
  let vars := setAt vars (v_start N) v
  let vars := setAt vars (cte_start N) cte
  let vars := setAt vars (epsi_start N) epsi
  -- Lower and upper limits for the variables.
  let vars_lowerbound : Nat → α := fun _ => 0
  let vars_upperbound : Nat → α := fun _ => 0
  let bounds := forLoop 0 (delta_start N)
    (fun i lu => (setAt lu.1 i (-1.0e19), setAt lu.2 i 1.0e19))
    (vars_lowerbound, vars_upperbound)
  let bounds := forLoop (delta_start N) (a_start N)
    (fun i lu => (setAt lu.1 i (-0.436332), setAt lu.2 i 0.436332)) bounds
  let bounds := forLoop (a_start N) n_vars
    (fun i lu => (setAt lu.1 i (-1.0), setAt lu.2 i 1.0)) bounds
  let vars_lowerbound := bounds.1
  let vars_upperbound := bounds.2
  -- Lower and upper limits for the constraints.
  let constraints_lowerbound : Nat → α := fun _ => 0
  let constraints_upperbound : Nat → α := fun _ => 0
  let cbounds := forLoop 0 n_constraints
    (fun i lu => (setAt lu.1 i 0, setAt lu.2 i 0))
    (constraints_lowerbound, constraints_upperbound)
  let constraints_lowerbound := cbounds.1
  let constraints_upperbound := cbounds.2
  let constraints_lowerbound := setAt constraints_lowerbound (x_start N) x
  let constraints_lowerbound := setAt constraints_lowerbound (y_start N) y
  let constraints_lowerbound := setAt constraints_lowerbound (psi_start N) psi
  let constraints_lowerbound := setAt constraints_lowerbound (v_start N) v
  let constraints_lowerbound := setAt constraints_lowerbound (cte_start N) cte
  let constraints_lowerbound := setAt constraints_lowerbound (epsi_start N) epsi
  let constraints_upperbound := setAt constraints_upperbound (x_start N) x
  let constraints_upperbound := setAt constraints_upperbound (y_start N) y
  let constraints_upperbound := setAt constraints_upperbound (psi_start N) psi
  let constraints_upperbound := setAt constraints_upperbound (v_start N) v
  let constraints_upperbound := setAt constraints_upperbound (cte_start N) cte
  let constraints_upperbound := setAt constraints_upperbound (epsi_start N) epsi
  -- Object that computes objective and constraints.
  let fg_eval := FG_eval cos sin atan coeffs ref_v
  let options := ""
  let options := options ++ "Integer print_level  0\n"
  let options := options ++ "Sparse  true        forward\n"
  let options := options ++ "Sparse  true        reverse\n"
  { options := options, n_vars := n_vars, n_constraints := n_constraints, vars := vars,
    vars_lowerbound := vars_lowerbound, vars_upperbound := vars_upperbound,
    constraints_lowerbound := constraints_lowerbound,
    constraints_upperbound := constraints_upperbound, fg_eval := fg_eval }

/-- Lines 301-302: `double latency = 0.1; int step = floor(latency/dt);`. -/
def Solve.step (α : Type) [LinearOrderedField α] [FloorRing α] : Int :=
  let latency : α := 0.1
  ⌊latency / dt α⌋

/-- The function `MPC::Solve(state, coeffs)`.  The solver
`CppAD::ipopt::solve` is the argument `solver`.  The flag `ok` of lines
292-293 is computed and never read.  The `int step` is not negative; the
index sums of the return statement convert it to `size_t`, here `toNat`. -/
def Solve (cos sin atan : α → α) (M_PI : α) (solver : Problem α → solve_result α)
    (state coeffs : List α) : SolveOut α :=
  let ref_v := Solve.ref_v atan M_PI state coeffs
  let solution := solver (Solve.problem cos sin atan M_PI state coeffs)
  let ok := true
  let _ok := ok && decide (solution.status = status_type.success)
  let cost := solution.obj_value
  let step := (Solve.step α).toNat
  { ref_v := ref_v,
    solution := solution,
    ret := [solution.x (x_start N + 1 + step), solution.x (y_start N + 1 + step),
            solution.x (psi_start N + 1 + step), solution.x (v_start N + 1 + step),
            solution.x (cte_start N + 1 + step), solution.x (epsi_start N + 1 + step),
            solution.x (delta_start N + step), solution.x (a_start N + step), cost] }

end Definitions

/-! ## `main.cpp` -/

section Definitions

variable {α : Type} [Field α]

/-- The function `constexpr double pi() { return M_PI; }`. -/
def pi (M_PI : α) : α := M_PI

/-- The function `deg2rad(x) = x * pi() / 180`. -/
def deg2rad (M_PI : α) (x : α) : α := x * pi M_PI / 180

/-- The function `rad2deg(x) = x * 180 / pi()`. -/
def rad2deg (M_PI : α) (x : α) : α := x * 180 / pi M_PI

/-- The function `transformToMap` (lines 23-29). -/
def transformToMap (cos sin : α → α) (x y x_car y_car sigma : α) : α × α :=
  let newx := x_car + cos sigma * x - sin sigma * y
  let newy := y_car + sin sigma * x + cos sigma * y
  (newx, newy)

/-- The function `transformToCar` (lines 31-39). -/
def transformToCar (cos sin : α → α) (x y x_car y_car sigma : α) : α × α :=
  let dx := x - x_car
  let dy := y - y_car
  let carx := cos sigma * dx + sin sigma * dy
  let cary := -sin sigma * dx + cos sigma * dy
  (carx, cary)

/-- Lines 173-179 of the message handler: the pair `(steering_angle,
throttle)` written to the reply, from the vector `vars` that `mpc.Solve`
returned. -/
def onMessage.command (M_PI : α) (vars : List α) : α × α :=
  let steer_value := -vars.getD 6 0 / deg2rad M_PI 25
  let throttle_value := vars.getD 7 0
  (steer_value, throttle_value)

/-- The assignment `A(j, i) = e` on a matrix seen as a function of its row and
column. -/
def setAt2 {β : Type} (A : Nat → Nat → β) (j i : Nat) (e : β) : Nat → Nat → β :=
  fun j2 i2 => if j2 = j ∧ i2 = i then e else A j2 i2

/-- The function `polyeval` (lines 59-65); `pow(x, i)` is `x ^ i`, and
`pow(0, 0)` is 1 in C as it is here. -/
def polyeval (coeffs : List α) (x : α) : α :=
  forLoop 0 coeffs.length (fun i result => result + coeffs.getD i 0 * x ^ i) 0.0

/-- Lines 74-84 of `polyfit`: the matrix `A` of `xvals.size()` rows and
`order + 1` columns after the two loops.  A matrix that has just been
constructed is the zero matrix; every entry is assigned by the loops. -/
def polyfit.A (xvals : List α) (order : Int) : Nat → Nat → α :=
  let A : Nat → Nat → α := fun _ _ => 0
  let A := forLoop 0 xvals.length (fun i A => setAt2 A i 0 1.0) A
  forLoop 0 xvals.length
    (fun j A => forLoop 0 order.toNat
      (fun i A => setAt2 A j (i + 1) (A j i * xvals.getD j 0)) A) A

/-- The function `polyfit` (lines 70-89).  A failed `assert` is `none`.  The
call `A.householderQr().solve(yvals)` of the Eigen library is the argument
`solve`, given the numbers of rows and columns, the matrix and the right-hand
side.  `xvals.size()` is a signed integer, so `xvals.size() - 1` is `-1` for
an empty vector. -/
def polyfit (solve : Nat → Nat → (Nat → Nat → α) → List α → List α)
    (xvals yvals : List α) (order : Int) : Option (List α) :=
  if xvals.length = yvals.length then
    if order ≥ 1 ∧ order ≤ (xvals.length : Int) - 1 then
      let A := polyfit.A xvals order
      let result := solve xvals.length (order + 1).toNat A yvals
      some result
    else none
  else none

/-- Lines 128-144 of the message handler: the waypoints in the coordinates of
the car, `(vptsx, vptsy)`.  An assignment `v(i) = e` with `i` beyond the size
of `v` (possible only when `ptsx` is longer than `ptsy`) leaves `v` alone. -/
def onMessage.waypoints (cos sin : α → α) (ptsx ptsy : List α) (px py psi : α) :
    List α × List α :=
  forLoop 0 ptsx.length
    (fun i vpts =>
      let p := transformToCar cos sin (ptsx.getD i 0) (ptsy.getD i 0) px py psi
      (vpts.1.set i p.1, vpts.2.set i p.2))
    (List.replicate ptsx.length 0, List.replicate ptsy.length 0)

/-- Lines 203-215 of the message handler: the pair `(next_x_vals,
next_y_vals)`.  The state of the loop is `(next_x_vals, next_y_vals,
current_x)`.  `lastx` reads the last entry of `vptsx`, which is not empty when
the fit before it has passed its assertions. -/
def onMessage.reference (coeffs vptsx : List α) : List α × List α :=
  let steps : Nat := 15
  let lastx := vptsx.getD (vptsx.length - 1) 0
  let step_x := lastx / (steps : α)
  let current_x : α := 0.0
  let r := forLoop 0 steps
    (fun _ s => (s.1 ++ [s.2.2], s.2.1 ++ [polyeval coeffs s.2.2], s.2.2 + step_x))
    (([] : List α), ([] : List α), current_x)
  (r.1, r.2.1)

end Definitions

/-! ## `main.cpp`: the fit as a least-squares solution, and the control cycle -/

section Definitions

variable {α : Type} [LinearOrderedField α] [FloorRing α]

/-- The sum of the squares of the entries of `A c - b`, for a matrix `A` of
`rows` rows and `cols` columns. -/
def sqResidual (rows cols : Nat) (A : Nat → Nat → α) (b c : List α) : α :=
  ∑ j in Finset.range rows,
    ((∑ i in Finset.range cols, A j i * c.getD i 0) - b.getD j 0) ^ 2

/-- Modelled from the spec: the Eigen library's `householderQr().solve`, which
is not among the sources.  The spec has the fit solve "the resulting linear
least-squares system via an orthogonal decomposition (QR)": on the system
`(A, b)` the result of `solve` has one entry per column of `A`, and no vector
of that size has a smaller sum of squared residuals. -/
def IsLeastSquares (solve : Nat → Nat → (Nat → Nat → α) → List α → List α)
    (rows cols : Nat) (A : Nat → Nat → α) (b : List α) : Prop :=
  (solve rows cols A b).length = cols ∧
  ∀ c : List α, c.length = cols →
    sqResidual rows cols A b (solve rows cols A b) ≤ sqResidual rows cols A b c

/-- The list has four entries that differ from one another. -/
def FourDistinct (xs : List α) : Prop :=
  ∃ a b c d, a ∈ xs ∧ b ∈ xs ∧ c ∈ xs ∧ d ∈ xs ∧
    a ≠ b ∧ a ≠ c ∧ a ≠ d ∧ b ≠ c ∧ b ≠ d ∧ c ≠ d

/-- Lines 181-193 of the message handler: the pair `(mpc_x_vals,
mpc_y_vals)`.  Both vectors are constructed with `ptsx.size()` entries, then
the loop appends to them. -/
def onMessage.predicted (ptsx : List α) (solution : solve_result α) : List α × List α :=
  let steps : Nat := 15
  forLoop 0 steps
    (fun i m => (m.1 ++ [solution.x (0 + i)], m.2 ++ [solution.x (steps + i)]))
    (List.replicate ptsx.length 0, List.replicate ptsx.length 0)

/-- What one telemetry message leaves behind: the fitted coefficients, the
initial state, the outcome of `mpc.Solve`, and the fields of the reply. -/
structure CycleOut (α : Type) where
  coeffs : List α
  state : List α
  solved : SolveOut α
  steering_angle : α
  throttle : α
  mpc_x : List α
  mpc_y : List α
  next_x : List α
  next_y : List α

/-- Lines 112-218 of the message handler, for a telemetry message with the
fields `ptsx`, `ptsy`, `x`, `y`, `psi` and `speed`.  The result is `none` when
an assertion of `polyfit` fails. -/
def onMessage.telemetry (cos sin atan : α → α) (M_PI : α)
    (solve : Nat → Nat → (Nat → Nat → α) → List α → List α)
    (solver : Problem α → solve_result α)
    (ptsx ptsy : List α) (px py psi v : α) : Option (CycleOut α) :=
  let vpts := onMessage.waypoints cos sin ptsx ptsy px py psi
  match polyfit solve vpts.1 vpts.2 3 with
  | none => none
  | some coeffs =>
    let cte := coeffs.getD 0 0
    let epsi := atan (coeffs.getD 1 0)
    let state := [0.0, 0.0, 0.0, v, cte, epsi]
    let vars := Solve cos sin atan M_PI solver state coeffs
    let command := onMessage.command M_PI vars.ret
    let mpc := onMessage.predicted ptsx vars.solution
    let next := onMessage.reference coeffs vpts.1
    some { coeffs := coeffs, state := state, solved := vars,
           steering_angle := command.1, throttle := command.2,
           mpc_x := mpc.1, mpc_y := mpc.2, next_x := next.1, next_y := next.2 }

end Definitions

/-! ## `main.cpp`: `hasData` (lines 46-56)

A `std::string` is the list of its characters.  The members `find`,
`find_first_of`, `rfind` and `substr` are those of the C++ standard library,
with positions and lengths in `size_t`. -/

/-- The constant `std::string::npos`, the largest `size_t`. -/
def npos : Nat := 18446744073709551615

/-- The string `pat` occurs in `s` at position `i`. -/
def occursAt (s pat : List Char) (i : Nat) : Bool :=
  decide ((s.drop i).take pat.length = pat)

/-- The least position in `lo .. lo + k - 1` at which `p` holds, if there is
one. -/
def firstFrom (p : Nat → Bool) (lo : Nat) : Nat → Option Nat
  | 0 => none
  | k + 1 => if p lo then some lo else firstFrom p (lo + 1) k

/-- The largest position below `n` at which `p` holds, if there is one. -/
def lastBelow (p : Nat → Bool) : Nat → Option Nat
  | 0 => none
  | n + 1 => if p n then some n else lastBelow p n

/-- The call `s.find(pat)`: the position of the first occurrence of `pat` in
`s`, or `npos`. -/
def find (s pat : List Char) : Nat :=
  match firstFrom (occursAt s pat) 0 (s.length + 1) with
  | some i => i
  | none => npos

/-- The call `s.find_first_of(chars)`: the position of the first character of
`s` that is one of `chars`, or `npos`. -/
def find_first_of (s chars : List Char) : Nat :=
  match firstFrom (fun i => decide (∃ c ∈ s.get? i, c ∈ chars)) 0 s.length with
  | some i => i
  | none => npos

/-- The call `s.rfind(pat)`: the position of the last occurrence of `pat` in
`s`, or `npos`. -/
def rfind (s pat : List Char) : Nat :=
  match lastBelow (occursAt s pat) (s.length + 1) with
  | some i => i
  | none => npos

/-- The call `s.substr(pos, len)`: the characters of `s` from position `pos`,
at most `len` of them; `none` is the exception `std::out_of_range`, thrown
when `pos` is beyond the size of `s`. -/
def substr (s : List Char) (pos len : Nat) : Option (List Char) :=
  if pos > s.length then none else some ((s.drop pos).take len)

/-- The function `hasData` (lines 46-56).  The length `b2 - b1 + 2` is a
`size_t` expression and wraps around. -/
def hasData (s : List Char) : Option (List Char) :=
  let found_null := find s "null".toList
  let b1 := find_first_of s "[".toList
  let b2 := rfind s "\x7d]".toList
  if found_null ≠ npos then
    some "".toList
  else if b1 ≠ npos ∧ b2 ≠ npos then
    substr s b1 (((b2 + 18446744073709551616 - b1) % 18446744073709551616 + 2)
      % 18446744073709551616)
  else
    some "".toList

/-! ## Theorems: loops -/

theorem forLoop_empty {σ : Type} (lo hi : Nat) (body : Nat → σ → σ) (s : σ)
    (h : hi ≤ lo) : forLoop lo hi body s = s := by
  simp [forLoop, Nat.sub_eq_zero_of_le h]

theorem forLoop_succ {σ : Type} (lo hi : Nat) (body : Nat → σ → σ) (s : σ)
    (h : lo ≤ hi) : forLoop lo (hi + 1) body s = body hi (forLoop lo hi body s) := by
  have e : hi + 1 - lo = (hi - lo) + 1 := by omega
  have e2 : lo + (hi - lo) = hi := by omega
  simp [forLoop, e, List.range'_concat, List.foldl_append, e2]

/-- A loop whose body never changes an observation leaves it as it was. -/
theorem forLoop_preserves {σ β : Type} (obs : σ → β) (lo hi : Nat)
    (body : Nat → σ → σ) (s : σ)
    (h : ∀ t, lo ≤ t → t < hi → ∀ u, obs (body t u) = obs u) :
    obs (forLoop lo hi body s) = obs s := by
  induction hi with
  | zero => rw [forLoop_empty _ _ _ _ (Nat.zero_le _)]
  | succ k ih =>
    rcases Nat.lt_or_ge k lo with hk | hk
    · rw [forLoop_empty _ _ _ _ (by omega)]
    · rw [forLoop_succ _ _ _ _ hk, h k hk (by omega)]
      exact ih (fun t h1 h2 => h t h1 (by omega))

/-- A loop whose iteration `t0` fixes an observation to `c`, and whose other
iterations do not change it, ends with the observation at `c`. -/
theorem forLoop_writes {σ β : Type} (obs : σ → β) (lo hi : Nat)
    (body : Nat → σ → σ) (s : σ) (t0 : Nat) (c : β) (h0 : lo ≤ t0) (h1 : t0 < hi)
    (hw : ∀ u, obs (body t0 u) = c)
    (hp : ∀ t, lo ≤ t → t < hi → t ≠ t0 → ∀ u, obs (body t u) = obs u) :
    obs (forLoop lo hi body s) = c := by
  induction hi with
  | zero => omega
  | succ k ih =>
    have hk : lo ≤ k := by omega
    rw [forLoop_succ _ _ _ _ hk]
    rcases Nat.eq_or_lt_of_le (Nat.le_of_lt_succ h1) with e | e
    · subst e; exact hw _
    · rw [hp k hk (by omega) (by omega)]
      exact ih e (fun t a b c => hp t a (by omega) c)

/-- A loop whose iteration `t` adds `g t` to an observation ends with the
observation increased by the sum of the `g t`. -/
theorem forLoop_sum {σ β : Type} [AddCommMonoid β] (obs : σ → β) (g : Nat → β)
    (lo hi : Nat) (body : Nat → σ → σ) (s : σ)
    (h : ∀ t, lo ≤ t → t < hi → ∀ u, obs (body t u) = obs u + g t) :
    obs (forLoop lo hi body s) = obs s + ∑ t in Finset.Ico lo hi, g t := by
  induction hi with
  | zero => rw [forLoop_empty _ _ _ _ (Nat.zero_le _)]; simp
  | succ k ih =>
    rcases Nat.lt_or_ge k lo with hk | hk
    · rw [forLoop_empty _ _ _ _ (by omega), Finset.Ico_eq_empty (by omega)]; simp
    · rw [forLoop_succ _ _ _ _ hk, h k hk (by omega),
        ih (fun t h1 h2 => h t h1 (by omega)), Finset.sum_Ico_succ_top hk, add_assoc]

/-! ## Theorems: layout -/

theorem layout_values :
    x_start N = 0 ∧ y_start N = 15 ∧ psi_start N = 30 ∧ v_start N = 45 ∧
    cte_start N = 60 ∧ epsi_start N = 75 ∧ delta_start N = 90 ∧ a_start N = 104 ∧
    n_vars N = 104 + 14 ∧ n_constraints N = 90 := by
  decide

theorem Ico_congr {a b c d : Nat} (h1 : a = c) (h2 : b = d) :
    Finset.Ico a b = Finset.Ico c d := by
  subst h1; subst h2; rfl

/-- The layout at a horizon length whose totals fit a `size_t`. -/
theorem layout_of_fits (n : Nat) (h1 : 1 ≤ n)
    (h2 : n * 6 + (n - 1) * 2 < 18446744073709551616) :
    x_start n = 0 ∧ y_start n = n ∧ psi_start n = 2 * n ∧ v_start n = 3 * n ∧
    cte_start n = 4 * n ∧ epsi_start n = 5 * n ∧ delta_start n = 6 * n ∧
    a_start n = 7 * n - 1 ∧ n_vars n = 8 * n - 2 := by
  have hx : x_start n = 0 := rfl
  have hy : y_start n = n := by simp only [y_start, hx]; omega
  have hpsi : psi_start n = 2 * n := by simp only [psi_start, hy]; omega
  have hv : v_start n = 3 * n := by simp only [v_start, hpsi]; omega
  have hcte : cte_start n = 4 * n := by simp only [cte_start, hv]; omega
  have hepsi : epsi_start n = 5 * n := by simp only [epsi_start, hcte]; omega
  have hdelta : delta_start n = 6 * n := by simp only [delta_start, hepsi]; omega
  have ha : a_start n = 7 * n - 1 := by simp only [a_start, hdelta]; omega
  have hn : n_vars n = 8 * n - 2 := by simp only [n_vars]; omega
  exact ⟨hx, hy, hpsi, hv, hcte, hepsi, hdelta, ha, hn⟩

/-- C5 (as amended): for every horizon length `N >= 1` whose total
`N*6 + (N-1)*2` fits a `size_t`, the eight index ranges are contiguous in the
order x, y, psi, v, cte, epsi, delta, a, starting at 0 and ending at `n_vars`,
they are pairwise disjoint, an index lies in one of them exactly when it is
below `n_vars`, and `n_vars` is `N*6 + (N-1)*2`. -/
theorem layout_partition (n : Nat) (h1 : 1 ≤ n)
    (h2 : n * 6 + (n - 1) * 2 < 18446744073709551616) :
    Contiguous (blocks n) 0 (n_vars n) ∧
    (blocks n).Pairwise Disjoint ∧
    (∀ i, i < n_vars n ↔ ∃ b ∈ blocks n, i ∈ b) ∧
    n_vars n = n * 6 + (n - 1) * 2 := by
  obtain ⟨hx, hy, hpsi, hv, hcte, hepsi, hdelta, ha, hn⟩ := layout_of_fits n h1 h2
  refine ⟨?_, ?_, ?_, by omega⟩
  · simp only [blocks, Contiguous]
    exact ⟨n, Ico_congr (by omega) (by omega), n, Ico_congr (by omega) (by omega),
      n, Ico_congr (by omega) (by omega), n, Ico_congr (by omega) (by omega),
      n, Ico_congr (by omega) (by omega), n, Ico_congr (by omega) (by omega),
      n - 1, Ico_congr (by omega) (by omega), n - 1, Ico_congr (by omega) (by omega),
      by omega⟩
  · simp only [blocks, hx, hy, hpsi, hv, hcte, hepsi, hdelta, ha]
    simp only [List.pairwise_cons, List.mem_cons, List.mem_singleton, List.not_mem_nil,
      forall_eq_or_imp, forall_eq, Finset.disjoint_left, Finset.mem_Ico, List.Pairwise.nil,
      IsEmpty.forall_iff, implies_true, and_true]
    repeat' apply And.intro
    all_goals (intro a; omega)
  · intro i
    simp only [blocks, hx, hy, hpsi, hv, hcte, hepsi, hdelta, ha, hn]
    simp only [List.mem_cons, List.mem_singleton, List.not_mem_nil, exists_eq_or_imp,
      exists_eq_left, Finset.mem_Ico, or_false, false_and, exists_false]
    omega

/-- C5, witness: the program's own horizon length `N = 15`. -/
theorem layout_partition_witness :
    Contiguous (blocks 15) 0 (n_vars 15) ∧
    (blocks 15).Pairwise Disjoint ∧
    (∀ i, i < n_vars 15 ↔ ∃ b ∈ blocks 15, i ∈ b) ∧
    n_vars 15 = 15 * 6 + (15 - 1) * 2 :=
  layout_partition 15 (by decide) (by decide)

/-- C5, counterexample: at the horizon length `2^61 + 1` the `size_t` total
`N*6 + (N-1)*2` wraps to 6, so index 6 lies in the x block but not below
`n_vars`: the ranges do not cover exactly `0 .. n_vars-1`. -/
theorem layout_partition_overflow :
    1 ≤ 2305843009213693953 ∧
    n_vars 2305843009213693953 = 6 ∧
    ¬ (∀ i, i < n_vars 2305843009213693953 ↔ ∃ b ∈ blocks 2305843009213693953, i ∈ b) := by
  have hn : n_vars 2305843009213693953 = 6 := by decide
  refine ⟨by decide, hn, ?_⟩
  intro h
  have h6 := (h 6).2 ⟨Finset.Ico (x_start 2305843009213693953)
    (x_start 2305843009213693953 + 2305843009213693953), by simp [blocks],
    by simp [x_start]⟩
  omega

/-! ## Theorems: `FG_eval` -/

section FGEval

variable {α : Type} [Field α]

theorem x_start_N : x_start N = 0 := by decide
theorem y_start_N : y_start N = 15 := by decide
theorem psi_start_N : psi_start N = 30 := by decide
theorem v_start_N : v_start N = 45 := by decide
theorem cte_start_N : cte_start N = 60 := by decide
theorem epsi_start_N : epsi_start N = 75 := by decide
theorem delta_start_N : delta_start N = 90 := by decide
theorem a_start_N : a_start N = 104 := by decide
theorem n_vars_N : n_vars N = 118 := by decide
theorem n_constraints_N : n_constraints N = 90 := by decide

/-- The constraint loop body reads as a chain of tests on the index. -/
theorem constraints_apply (cos sin atan : α → α) (coeffs : List α) (vars fg : Nat → α)
    (t j : Nat) :
    FG_eval.constraints cos sin atan coeffs vars t fg j =
      if j = 76 + t then
        vars (75 + t) - ((vars (30 + t - 1)
          - atan (coeffs.getD 1 0 + coeffs.getD 2 0 * vars (0 + t - 1)
              + coeffs.getD 3 0 * vars (0 + t - 1) * vars (0 + t - 1)))
          + vars (45 + t - 1) * vars (90 + t - 1) / Lf α * dt α)
      else if j = 61 + t then
        vars (60 + t) - ((coeffs.getD 0 0
          + coeffs.getD 1 0 * (vars (0 + t - 1) + vars (45 + t - 1) * cos (vars (30 + t - 1)) * dt α)
          + coeffs.getD 2 0 * (vars (0 + t - 1) + vars (45 + t - 1) * cos (vars (30 + t - 1)) * dt α)
              * (vars (0 + t - 1) + vars (45 + t - 1) * cos (vars (30 + t - 1)) * dt α)
          + coeffs.getD 3 0 * (vars (0 + t - 1) + vars (45 + t - 1) * cos (vars (30 + t - 1)) * dt α)
              * (vars (0 + t - 1) + vars (45 + t - 1) * cos (vars (30 + t - 1)) * dt α)
              * (vars (0 + t - 1) + vars (45 + t - 1) * cos (vars (30 + t - 1)) * dt α))
          - (vars (15 + t - 1) + vars (45 + t - 1) * sin (vars (30 + t - 1)) * dt α))
      else if j = 46 + t then
        vars (45 + t) - (vars (45 + t - 1) + vars (104 + t - 1) * dt α)
      else if j = 31 + t then
        vars (30 + t) - (vars (30 + t - 1) + vars (45 + t - 1) * vars (90 + t - 1) / Lf α * dt α)
      else if j = 16 + t then
        vars (15 + t) - (vars (15 + t - 1) + vars (45 + t - 1) * sin (vars (30 + t - 1)) * dt α)
      else if j = 1 + t then
        vars (0 + t) - (vars (0 + t - 1) + vars (45 + t - 1) * cos (vars (30 + t - 1)) * dt α)
      else fg j := by
  simp only [FG_eval.constraints, setAt, x_start_N, y_start_N, psi_start_N, v_start_N,
    cte_start_N, epsi_start_N, delta_start_N, a_start_N]

/-- Iteration `t` of the constraint loop leaves alone every entry that is not
`1 + b + t` for a state block `b`. -/
theorem constraints_other (cos sin atan : α → α) (coeffs : List α) (vars fg : Nat → α)
    (t j : Nat) (h : j ≠ 1 + t ∧ j ≠ 16 + t ∧ j ≠ 31 + t ∧ j ≠ 46 + t ∧ j ≠ 61 + t
      ∧ j ≠ 76 + t) :
    FG_eval.constraints cos sin atan coeffs vars t fg j = fg j := by
  obtain ⟨h1, h2, h3, h4, h5, h6⟩ := h
  rw [constraints_apply, if_neg h6, if_neg h5, if_neg h4, if_neg h3, if_neg h2, if_neg h1]

/-- What iteration `t` of the constraint loop writes does not depend on the
vector it writes to. -/
theorem constraints_written (cos sin atan : α → α) (coeffs : List α) (vars fg fg2 : Nat → α)
    (t j : Nat) (h : j = 1 + t ∨ j = 16 + t ∨ j = 31 + t ∨ j = 46 + t ∨ j = 61 + t
      ∨ j = 76 + t) :
    FG_eval.constraints cos sin atan coeffs vars t fg j =
      FG_eval.constraints cos sin atan coeffs vars t fg2 j := by
  rw [constraints_apply, constraints_apply]
  rcases h with e | e | e | e | e | e
  · rw [if_neg (by omega), if_neg (by omega), if_neg (by omega), if_neg (by omega),
      if_neg (by omega), if_pos e, if_neg (by omega), if_neg (by omega), if_neg (by omega),
      if_neg (by omega), if_neg (by omega), if_pos e]
  · rw [if_neg (by omega), if_neg (by omega), if_neg (by omega), if_neg (by omega),
      if_pos e, if_neg (by omega), if_neg (by omega), if_neg (by omega),
      if_neg (by omega), if_pos e]
  · rw [if_neg (by omega), if_neg (by omega), if_neg (by omega), if_pos e,
      if_neg (by omega), if_neg (by omega), if_neg (by omega), if_pos e]
  · rw [if_neg (by omega), if_neg (by omega), if_pos e,
      if_neg (by omega), if_neg (by omega), if_pos e]
  · rw [if_neg (by omega), if_pos e, if_neg (by omega), if_pos e]
  · rw [if_pos e, if_pos e]

/-- An entry `1 + b + t` of a state block `b`, at a step `1 <= t < N`, holds on
exit what iteration `t` of the constraint loop wrote there. -/
theorem FG_eval_apply_step (cos sin atan : α → α) (coeffs : List α) (ref_v : α)
    (fg vars : Nat → α) (t b : Nat) (h1 : 1 ≤ t) (h2 : t < 15)
    (hb : b = 0 ∨ b = 15 ∨ b = 30 ∨ b = 45 ∨ b = 60 ∨ b = 75) :
    FG_eval cos sin atan coeffs ref_v fg vars (1 + b + t) =
      FG_eval.constraints cos sin atan coeffs vars t (fun _ => 0) (1 + b + t) := by
  unfold FG_eval
  apply forLoop_writes (fun g : Nat → α => g (1 + b + t)) 1 N _ _ t _ h1 h2
  · intro u
    exact constraints_written cos sin atan coeffs vars u _ t _ (by omega)
  · intro k hk1 hk2 hne u
    have hk3 : k < 15 := hk2
    exact constraints_other cos sin atan coeffs vars u k _ (by omega)

/-- The cost entry `fg[0]` on exit. -/
theorem FG_eval_apply_zero (cos sin atan : α → α) (coeffs : List α) (ref_v : α)
    (fg vars : Nat → α) :
    FG_eval cos sin atan coeffs ref_v fg vars 0 =
      0 + (∑ t in Finset.Ico 0 N, ((vars (cte_start N + t)) ^ 2
            + (vars (epsi_start N + t)) ^ 2 + (vars (v_start N + t) - ref_v) ^ 2))
        + (∑ t in Finset.Ico 0 (N - 1), (150 * (vars (delta_start N + t)) ^ 2
            + (vars (a_start N + t)) ^ 2))
        + (∑ t in Finset.Ico 0 (N - 2),
            (2000.0 * (vars (delta_start N + t + 1) - vars (delta_start N + t)) ^ 2
            + (vars (a_start N + t + 1) - vars (a_start N + t)) ^ 2)) := by
  unfold FG_eval
  rw [forLoop_preserves (fun g : Nat → α => g 0) 1 N _ _ (fun k _ _ u =>
    constraints_other cos sin atan coeffs vars u k 0 (by omega))]
  have hinit : ∀ g : Nat → α, FG_eval.initial vars g 0 = g 0 := by
    intro g
    simp [FG_eval.initial, setAt, x_start_N, y_start_N, psi_start_N, v_start_N,
      cte_start_N, epsi_start_N]
  rw [hinit]
  rw [forLoop_sum (fun g : Nat → α => g 0)
    (fun t => 2000.0 * (vars (delta_start N + t + 1) - vars (delta_start N + t)) ^ 2
            + (vars (a_start N + t + 1) - vars (a_start N + t)) ^ 2)
    0 (N - 2) (FG_eval.costGap vars) _
    (fun t _ _ u => by simp [FG_eval.costGap, setAt, add_assoc])]
  rw [forLoop_sum (fun g : Nat → α => g 0)
    (fun t => 150 * (vars (delta_start N + t)) ^ 2 + (vars (a_start N + t)) ^ 2)
    0 (N - 1) (FG_eval.costActuators vars) _
    (fun t _ _ u => by simp [FG_eval.costActuators, setAt, add_assoc])]
  rw [forLoop_sum (fun g : Nat → α => g 0)
    (fun t => (vars (cte_start N + t)) ^ 2
            + (vars (epsi_start N + t)) ^ 2 + (vars (v_start N + t) - ref_v) ^ 2)
    0 N (FG_eval.costReference ref_v vars) _
    (fun t _ _ u => by simp [FG_eval.costReference, setAt, add_assoc])]
  simp [setAt]

/-- The six constraint entries of a step `1 <= t < N` on exit, with the
polynomial of line 138 written with `x01` expanded. -/
theorem FG_eval_entries (cos sin atan : α → α) (coeffs : List α) (ref_v : α)
    (fg vars : Nat → α) (t : Nat) (h1 : 1 ≤ t) (h2 : t < 15) :
    FG_eval cos sin atan coeffs ref_v fg vars (1 + x_start N + t) =
        vars (x_start N + t) - (vars (x_start N + (t - 1))
          + vars (v_start N + (t - 1)) * cos (vars (psi_start N + (t - 1))) * dt α) ∧
    FG_eval cos sin atan coeffs ref_v fg vars (1 + y_start N + t) =
        vars (y_start N + t) - (vars (y_start N + (t - 1))
          + vars (v_start N + (t - 1)) * sin (vars (psi_start N + (t - 1))) * dt α) ∧
    FG_eval cos sin atan coeffs ref_v fg vars (1 + psi_start N + t) =
        vars (psi_start N + t) - (vars (psi_start N + (t - 1))
          + vars (v_start N + (t - 1)) * vars (delta_start N + (t - 1)) / Lf α * dt α) ∧
    FG_eval cos sin atan coeffs ref_v fg vars (1 + v_start N + t) =
        vars (v_start N + t) - (vars (v_start N + (t - 1))
          + vars (a_start N + (t - 1)) * dt α) ∧
    FG_eval cos sin atan coeffs ref_v fg vars (1 + cte_start N + t) =
        vars (cte_start N + t) - ((coeffs.getD 0 0
          + coeffs.getD 1 0 * (vars (x_start N + (t - 1))
              + vars (v_start N + (t - 1)) * cos (vars (psi_start N + (t - 1))) * dt α)
          + coeffs.getD 2 0 * (vars (x_start N + (t - 1))
              + vars (v_start N + (t - 1)) * cos (vars (psi_start N + (t - 1))) * dt α)
            * (vars (x_start N + (t - 1))
              + vars (v_start N + (t - 1)) * cos (vars (psi_start N + (t - 1))) * dt α)
          + coeffs.getD 3 0 * (vars (x_start N + (t - 1))
              + vars (v_start N + (t - 1)) * cos (vars (psi_start N + (t - 1))) * dt α)
            * (vars (x_start N + (t - 1))
              + vars (v_start N + (t - 1)) * cos (vars (psi_start N + (t - 1))) * dt α)
            * (vars (x_start N + (t - 1))
              + vars (v_start N + (t - 1)) * cos (vars (psi_start N + (t - 1))) * dt α))
          - (vars (y_start N + (t - 1))
              + vars (v_start N + (t - 1)) * sin (vars (psi_start N + (t - 1))) * dt α)) ∧
    FG_eval cos sin atan coeffs ref_v fg vars (1 + epsi_start N + t) =
        vars (epsi_start N + t) - ((vars (psi_start N + (t - 1))
          - atan (coeffs.getD 1 0 + coeffs.getD 2 0 * vars (x_start N + (t - 1))
              + coeffs.getD 3 0 * vars (x_start N + (t - 1)) * vars (x_start N + (t - 1))))
          + vars (v_start N + (t - 1)) * vars (delta_start N + (t - 1)) / Lf α * dt α) := by
  have e0 : 0 + (t - 1) = 0 + t - 1 := by omega
  have e15 : 15 + (t - 1) = 15 + t - 1 := by omega
  have e30 : 30 + (t - 1) = 30 + t - 1 := by omega
  have e45 : 45 + (t - 1) = 45 + t - 1 := by omega
  have e90 : 90 + (t - 1) = 90 + t - 1 := by omega
  have e104 : 104 + (t - 1) = 104 + t - 1 := by omega
  simp only [x_start_N, y_start_N, psi_start_N, v_start_N, cte_start_N, epsi_start_N,
    delta_start_N, a_start_N, e0, e15, e30, e45, e90, e104]
  refine ⟨?_, ?_, ?_, ?_, ?_, ?_⟩
  · rw [FG_eval_apply_step cos sin atan coeffs ref_v fg vars t 0 h1 h2 (by omega),
      constraints_apply, if_neg (by omega), if_neg (by omega), if_neg (by omega),
      if_neg (by omega), if_neg (by omega), if_pos (by omega)]
  · rw [FG_eval_apply_step cos sin atan coeffs ref_v fg vars t 15 h1 h2 (by omega),
      constraints_apply, if_neg (by omega), if_neg (by omega), if_neg (by omega),
      if_neg (by omega), if_pos (by omega)]
  · rw [FG_eval_apply_step cos sin atan coeffs ref_v fg vars t 30 h1 h2 (by omega),
      constraints_apply, if_neg (by omega), if_neg (by omega), if_neg (by omega),
      if_pos (by omega)]
  · rw [FG_eval_apply_step cos sin atan coeffs ref_v fg vars t 45 h1 h2 (by omega),
      constraints_apply, if_neg (by omega), if_neg (by omega), if_pos (by omega)]
  · rw [FG_eval_apply_step cos sin atan coeffs ref_v fg vars t 60 h1 h2 (by omega),
      constraints_apply, if_neg (by omega), if_pos (by omega)]
  · rw [FG_eval_apply_step cos sin atan coeffs ref_v fg vars t 75 h1 h2 (by omega),
      constraints_apply, if_pos (by omega)]

end FGEval

/-! ## Theorems: the constraints and the cost, over the reals -/

/-- C1: for every decision vector and every step `t` with `1 <= t <= N-1`, the
four constraint entries that `FG_eval` writes for x, y, psi and v at step `t`
are all zero exactly when the vector obeys the kinematic bicycle update with
`dt = 0.05` and `Lf = 2.67`. -/
theorem FG_eval_dynamics_zero_iff (coeffs : List ℝ) (ref_v : ℝ) (fg vars : ℕ → ℝ) (t : ℕ)
    (h1 : 1 ≤ t) (h2 : t ≤ N - 1) :
    (FG_eval Real.cos Real.sin Real.arctan coeffs ref_v fg vars (1 + x_start N + t) = 0 ∧
     FG_eval Real.cos Real.sin Real.arctan coeffs ref_v fg vars (1 + y_start N + t) = 0 ∧
     FG_eval Real.cos Real.sin Real.arctan coeffs ref_v fg vars (1 + psi_start N + t) = 0 ∧
     FG_eval Real.cos Real.sin Real.arctan coeffs ref_v fg vars (1 + v_start N + t) = 0) ↔
    (vars (x_start N + t) = vars (x_start N + (t - 1))
        + vars (v_start N + (t - 1)) * Real.cos (vars (psi_start N + (t - 1))) * 0.05 ∧
     vars (y_start N + t) = vars (y_start N + (t - 1))
        + vars (v_start N + (t - 1)) * Real.sin (vars (psi_start N + (t - 1))) * 0.05 ∧
     vars (psi_start N + t) = vars (psi_start N + (t - 1))
        + vars (v_start N + (t - 1)) / 2.67 * vars (delta_start N + (t - 1)) * 0.05 ∧
     vars (v_start N + t) = vars (v_start N + (t - 1))
        + vars (a_start N + (t - 1)) * 0.05) := by
  have ht : t < 15 := by have hN : N = 15 := rfl; omega
  obtain ⟨ex, ey, epsi, ev, -, -⟩ :=
    FG_eval_entries Real.cos Real.sin Real.arctan coeffs ref_v fg vars t h1 ht
  rw [ex, ey, epsi, ev]
  simp only [dt, Lf, sub_eq_zero]
  have hdiv : vars (v_start N + (t - 1)) * vars (delta_start N + (t - 1)) / 2.67 * 0.05
      = vars (v_start N + (t - 1)) / 2.67 * vars (delta_start N + (t - 1)) * 0.05 := by ring
  rw [hdiv]

/-- C1, witness: step 3 of the decision vector whose entry `i` is `i`. -/
theorem FG_eval_dynamics_zero_iff_witness :
    (1 ≤ 3 ∧ 3 ≤ N - 1) ∧
    ((FG_eval Real.cos Real.sin Real.arctan [1, 2, 3, 4] 60 (fun _ => 0)
        (fun i => (i : ℝ)) (1 + x_start N + 3) = 0 ∧
     FG_eval Real.cos Real.sin Real.arctan [1, 2, 3, 4] 60 (fun _ => 0)
        (fun i => (i : ℝ)) (1 + y_start N + 3) = 0 ∧
     FG_eval Real.cos Real.sin Real.arctan [1, 2, 3, 4] 60 (fun _ => 0)
        (fun i => (i : ℝ)) (1 + psi_start N + 3) = 0 ∧
     FG_eval Real.cos Real.sin Real.arctan [1, 2, 3, 4] 60 (fun _ => 0)
        (fun i => (i : ℝ)) (1 + v_start N + 3) = 0) ↔
    (((x_start N + 3 : ℕ) : ℝ) = ((x_start N + (3 - 1) : ℕ) : ℝ)
        + ((v_start N + (3 - 1) : ℕ) : ℝ) * Real.cos ((psi_start N + (3 - 1) : ℕ) : ℝ) * 0.05 ∧
     ((y_start N + 3 : ℕ) : ℝ) = ((y_start N + (3 - 1) : ℕ) : ℝ)
        + ((v_start N + (3 - 1) : ℕ) : ℝ) * Real.sin ((psi_start N + (3 - 1) : ℕ) : ℝ) * 0.05 ∧
     ((psi_start N + 3 : ℕ) : ℝ) = ((psi_start N + (3 - 1) : ℕ) : ℝ)
        + ((v_start N + (3 - 1) : ℕ) : ℝ) / 2.67 * ((delta_start N + (3 - 1) : ℕ) : ℝ) * 0.05 ∧
     ((v_start N + 3 : ℕ) : ℝ) = ((v_start N + (3 - 1) : ℕ) : ℝ)
        + ((a_start N + (3 - 1) : ℕ) : ℝ) * 0.05)) :=
  ⟨⟨by decide, by decide⟩,
   FG_eval_dynamics_zero_iff [1, 2, 3, 4] 60 (fun _ => 0) (fun i => (i : ℝ)) 3
     (by decide) (by decide)⟩

/-- C3: for every decision vector whose x and cte constraint entries at step
`t` are zero (`1 <= t <= N-1`), `cte_t = f(x_t) - (y_{t-1} +
v_{t-1}*sin(psi_{t-1})*dt)`, where `f` is the cubic of the coefficients and
`x_t` is the vector's own x at step `t`. -/
theorem FG_eval_cte_at_next_x (c0 c1 c2 c3 ref_v : ℝ) (fg vars : ℕ → ℝ) (t : ℕ)
    (h1 : 1 ≤ t) (h2 : t ≤ N - 1)
    (hx : FG_eval Real.cos Real.sin Real.arctan [c0, c1, c2, c3] ref_v fg vars
      (1 + x_start N + t) = 0)
    (hcte : FG_eval Real.cos Real.sin Real.arctan [c0, c1, c2, c3] ref_v fg vars
      (1 + cte_start N + t) = 0) :
    vars (cte_start N + t) =
      (c0 + c1 * vars (x_start N + t) + c2 * vars (x_start N + t) ^ 2
        + c3 * vars (x_start N + t) ^ 3)
      - (vars (y_start N + (t - 1))
        + vars (v_start N + (t - 1)) * Real.sin (vars (psi_start N + (t - 1))) * 0.05) := by
  have ht : t < 15 := by have hN : N = 15 := rfl; omega
  obtain ⟨ex, -, -, -, ecte, -⟩ :=
    FG_eval_entries Real.cos Real.sin Real.arctan [c0, c1, c2, c3] ref_v fg vars t h1 ht
  rw [ex, sub_eq_zero] at hx
  rw [ecte, ← hx, sub_eq_zero] at hcte
  rw [hcte]
  simp only [List.getD_cons_zero, List.getD_cons_succ, dt]
  ring

/-- C3, witness: step 1 of `movingVars` at the heading of 1 radian, a vehicle
that moves from `x_0 = 1/2` to `x_1 = 1/2 + 2*cos(1)*0.05`, with the cubic
`1 + 2x + 3x^2 + 4x^3`: `x_1` differs from `x_0`, `cte_1` is the cubic at
`x_1` less the propagated y, and it is not the cubic at `x_0` less that y. -/
theorem FG_eval_cte_at_next_x_witness :
    movingVars (Real.cos 1) (Real.sin 1) (x_start N + 1)
      ≠ movingVars (Real.cos 1) (Real.sin 1) (x_start N + (1 - 1)) ∧
    movingVars (Real.cos 1) (Real.sin 1) (cte_start N + 1) =
      (1 + 2 * movingVars (Real.cos 1) (Real.sin 1) (x_start N + 1)
        + 3 * movingVars (Real.cos 1) (Real.sin 1) (x_start N + 1) ^ 2
        + 4 * movingVars (Real.cos 1) (Real.sin 1) (x_start N + 1) ^ 3)
      - (movingVars (Real.cos 1) (Real.sin 1) (y_start N + (1 - 1))
        + movingVars (Real.cos 1) (Real.sin 1) (v_start N + (1 - 1))
          * Real.sin (movingVars (Real.cos 1) (Real.sin 1) (psi_start N + (1 - 1)))
          * 0.05) ∧
    movingVars (Real.cos 1) (Real.sin 1) (cte_start N + 1) ≠
      (1 + 2 * movingVars (Real.cos 1) (Real.sin 1) (x_start N + (1 - 1))
        + 3 * movingVars (Real.cos 1) (Real.sin 1) (x_start N + (1 - 1)) ^ 2
        + 4 * movingVars (Real.cos 1) (Real.sin 1) (x_start N + (1 - 1)) ^ 3)
      - (movingVars (Real.cos 1) (Real.sin 1) (y_start N + (1 - 1))
        + movingVars (Real.cos 1) (Real.sin 1) (v_start N + (1 - 1))
          * Real.sin (movingVars (Real.cos 1) (Real.sin 1) (psi_start N + (1 - 1)))
          * 0.05) := by
  have hc : 0 < Real.cos 1 := Real.cos_one_pos
  refine ⟨?_, ?_, ?_⟩
  · simp only [movingVars, x_start_N]
    norm_num
    exact ne_of_gt hc
  · exact FG_eval_cte_at_next_x 1 2 3 4 60 (fun _ => 0)
      (movingVars (Real.cos 1) (Real.sin 1)) 1 (by decide) (by decide)
      (by
        rw [(FG_eval_entries Real.cos Real.sin Real.arctan [1, 2, 3, 4] 60 (fun _ => 0)
          (movingVars (Real.cos 1) (Real.sin 1)) 1 (by decide) (by decide)).1]
        simp only [movingVars, x_start_N, v_start_N, psi_start_N, dt]
        norm_num)
      (by
        rw [(FG_eval_entries Real.cos Real.sin Real.arctan [1, 2, 3, 4] 60 (fun _ => 0)
          (movingVars (Real.cos 1) (Real.sin 1)) 1 (by decide) (by decide)).2.2.2.2.1]
        simp only [movingVars, x_start_N, y_start_N, v_start_N, psi_start_N, cte_start_N, dt,
          List.getD_cons_zero, List.getD_cons_succ]
        norm_num
        ring)
  · simp only [movingVars, x_start_N, y_start_N, v_start_N, psi_start_N, cte_start_N]
    norm_num
    intro h
    nlinarith [hc, sq_nonneg (Real.cos 1), mul_pos hc hc, mul_pos (mul_pos hc hc) hc]

/-- C4: for every decision vector, the cost `FG_eval` stores in `fg[0]` is the
sum over `t = 0..14` of `cte_t^2 + epsi_t^2 + (v_t - ref_v)^2`, plus the sum
over `t = 0..13` of `150*delta_t^2 + a_t^2`, plus the sum over `t = 0..12` of
`2000*(delta_{t+1} - delta_t)^2 + (a_{t+1} - a_t)^2`, and `N = 15`. -/
theorem FG_eval_cost (coeffs : List ℝ) (ref_v : ℝ) (fg vars : ℕ → ℝ) :
    N = 15 ∧
    FG_eval Real.cos Real.sin Real.arctan coeffs ref_v fg vars 0 =
      (∑ t in Finset.range 15, ((vars (cte_start N + t)) ^ 2
          + (vars (epsi_start N + t)) ^ 2 + (vars (v_start N + t) - ref_v) ^ 2))
      + (∑ t in Finset.range 14, (150 * (vars (delta_start N + t)) ^ 2
          + (vars (a_start N + t)) ^ 2))
      + (∑ t in Finset.range 13,
          (2000 * (vars (delta_start N + (t + 1)) - vars (delta_start N + t)) ^ 2
          + (vars (a_start N + (t + 1)) - vars (a_start N + t)) ^ 2)) := by
  refine ⟨rfl, ?_⟩
  rw [FG_eval_apply_zero]
  have hN : N = 15 := rfl
  simp only [hN, Nat.reduceSub, zero_add, ← Finset.range_eq_Ico, add_assoc]
  norm_num

/-- C2: at the cubic `-x + x^2`, whose slope at `x = 1` is `1`, and the
decision vector that is 1 at `x_0` and 0 elsewhere, the epsi constraint entry
of step 1 is zero although `epsi_1` differs from `(psi_0 - atan(f'(x_0))) +
v_0/Lf*delta_0*dt`: line 141 takes the slope to be `c1 + c2*x + c3*x^2`, here
`0`, and not `c1 + 2*c2*x + 3*c3*x^2`. -/
theorem FG_eval_epsi_slope_without_factors :
    FG_eval Real.cos Real.sin Real.arctan [0, -1, 1, 0] 60 (fun _ => 0)
      (fun i => if i = 0 then 1 else 0) (1 + epsi_start N + 1) = 0 ∧
    ¬ ((fun i : ℕ => if i = 0 then (1 : ℝ) else 0) (epsi_start N + 1) =
        ((fun i : ℕ => if i = 0 then (1 : ℝ) else 0) (psi_start N + (1 - 1))
          - Real.arctan (-1 + 2 * 1 * (fun i : ℕ => if i = 0 then (1 : ℝ) else 0)
              (x_start N + (1 - 1))
            + 3 * 0 * (fun i : ℕ => if i = 0 then (1 : ℝ) else 0) (x_start N + (1 - 1)) ^ 2))
        + (fun i : ℕ => if i = 0 then (1 : ℝ) else 0) (v_start N + (1 - 1)) / 2.67
          * (fun i : ℕ => if i = 0 then (1 : ℝ) else 0) (delta_start N + (1 - 1)) * 0.05) := by
  constructor
  · rw [(FG_eval_entries Real.cos Real.sin Real.arctan [0, -1, 1, 0] 60 (fun _ => 0)
      (fun i => if i = 0 then 1 else 0) 1 (by decide) (by decide)).2.2.2.2.2]
    simp [x_start_N, v_start_N, psi_start_N, epsi_start_N, delta_start_N]
  · simp only [x_start_N, v_start_N, psi_start_N, epsi_start_N, delta_start_N]
    norm_num
    have h := Real.pi_pos
    linarith

/-- What line 160 constrains: the epsi entry of a step `1 <= t <= N-1` is zero
exactly when `epsi_t = (psi_{t-1} - atan(c1 + c2*x_{t-1} + c3*x_{t-1}^2)) +
v_{t-1}/Lf*delta_{t-1}*dt`, with the slope as line 141 computes it. -/
theorem FG_eval_epsi_zero_iff (c0 c1 c2 c3 ref_v : ℝ) (fg vars : ℕ → ℝ) (t : ℕ)
    (h1 : 1 ≤ t) (h2 : t ≤ N - 1) :
    FG_eval Real.cos Real.sin Real.arctan [c0, c1, c2, c3] ref_v fg vars
        (1 + epsi_start N + t) = 0 ↔
      vars (epsi_start N + t) =
        (vars (psi_start N + (t - 1))
          - Real.arctan (c1 + c2 * vars (x_start N + (t - 1))
              + c3 * vars (x_start N + (t - 1)) ^ 2))
        + vars (v_start N + (t - 1)) / 2.67 * vars (delta_start N + (t - 1)) * 0.05 := by
  have ht : t < 15 := by have hN : N = 15 := rfl; omega
  rw [(FG_eval_entries Real.cos Real.sin Real.arctan [c0, c1, c2, c3] ref_v fg vars t
    h1 ht).2.2.2.2.2, sub_eq_zero]
  simp only [List.getD_cons_zero, List.getD_cons_succ, dt, Lf]
  have hs : c1 + c2 * vars (x_start N + (t - 1))
      + c3 * vars (x_start N + (t - 1)) * vars (x_start N + (t - 1))
      = c1 + c2 * vars (x_start N + (t - 1)) + c3 * vars (x_start N + (t - 1)) ^ 2 := by ring
  have hdiv : vars (v_start N + (t - 1)) * vars (delta_start N + (t - 1)) / 2.67 * 0.05
      = vars (v_start N + (t - 1)) / 2.67 * vars (delta_start N + (t - 1)) * 0.05 := by ring
  rw [hs, hdiv]

/-- C9: for every decision vector whose x, y, psi and v constraint entries at
steps `1..N-1` are all zero, with `delta_t = 0` and `a_t = a` for every
`t <= N-2`, at every step `t <= N-1` the heading is `psi_0`, the speed is
`v_0 + a*t*dt`, the position is `x_0 + cos(psi_0)*dt*(v_0 + ... + v_{t-1})`,
`y_0 + sin(psi_0)*dt*(v_0 + ... + v_{t-1})`, and it lies on the line through
`(x_0, y_0)` with direction `psi_0`. -/
theorem FG_eval_straight_line (coeffs : List ℝ) (ref_v : ℝ) (fg vars : ℕ → ℝ) (a : ℝ)
    (hdyn : ∀ t, 1 ≤ t → t ≤ N - 1 →
      FG_eval Real.cos Real.sin Real.arctan coeffs ref_v fg vars (1 + x_start N + t) = 0 ∧
      FG_eval Real.cos Real.sin Real.arctan coeffs ref_v fg vars (1 + y_start N + t) = 0 ∧
      FG_eval Real.cos Real.sin Real.arctan coeffs ref_v fg vars (1 + psi_start N + t) = 0 ∧
      FG_eval Real.cos Real.sin Real.arctan coeffs ref_v fg vars (1 + v_start N + t) = 0)
    (hdelta : ∀ t, t ≤ N - 2 → vars (delta_start N + t) = 0)
    (ha : ∀ t, t ≤ N - 2 → vars (a_start N + t) = a) :
    ∀ t, t ≤ N - 1 →
      vars (psi_start N + t) = vars (psi_start N + 0) ∧
      vars (v_start N + t) = vars (v_start N + 0) + a * t * 0.05 ∧
      vars (x_start N + t) = vars (x_start N + 0)
        + Real.cos (vars (psi_start N + 0)) * 0.05
          * ∑ s in Finset.range t, vars (v_start N + s) ∧
      vars (y_start N + t) = vars (y_start N + 0)
        + Real.sin (vars (psi_start N + 0)) * 0.05
          * ∑ s in Finset.range t, vars (v_start N + s) ∧
      (vars (x_start N + t) - vars (x_start N + 0)) * Real.sin (vars (psi_start N + 0))
        = (vars (y_start N + t) - vars (y_start N + 0)) * Real.cos (vars (psi_start N + 0)) := by
  have hN : N = 15 := rfl
  have key : ∀ t, t ≤ N - 1 →
      vars (psi_start N + t) = vars (psi_start N + 0) ∧
      vars (v_start N + t) = vars (v_start N + 0) + a * t * 0.05 ∧
      vars (x_start N + t) = vars (x_start N + 0)
        + Real.cos (vars (psi_start N + 0)) * 0.05
          * ∑ s in Finset.range t, vars (v_start N + s) ∧
      vars (y_start N + t) = vars (y_start N + 0)
        + Real.sin (vars (psi_start N + 0)) * 0.05
          * ∑ s in Finset.range t, vars (v_start N + s) := by
    intro t
    induction t with
    | zero => intro _; simp
    | succ k ih =>
      intro hk
      obtain ⟨ipsi, iv, ix, iy⟩ := ih (by omega)
      obtain ⟨ex, ey, epsi, ev, -, -⟩ :=
        FG_eval_entries Real.cos Real.sin Real.arctan coeffs ref_v fg vars (k + 1)
          (by omega) (by omega)
      obtain ⟨zx, zy, zpsi, zv⟩ := hdyn (k + 1) (by omega) hk
      rw [ex, sub_eq_zero] at zx
      rw [ey, sub_eq_zero] at zy
      rw [epsi, sub_eq_zero] at zpsi
      rw [ev, sub_eq_zero] at zv
      simp only [Nat.add_sub_cancel, dt, Lf] at zx zy zpsi zv
      rw [hdelta k (by omega)] at zpsi
      rw [ha k (by omega)] at zv
      rw [ipsi] at zx zy
      refine ⟨?_, ?_, ?_, ?_⟩
      · rw [zpsi, ipsi]; ring
      · rw [zv, iv]; push_cast; ring
      · rw [zx, ix, Finset.sum_range_succ]; ring
      · rw [zy, iy, Finset.sum_range_succ]; ring
  intro t ht
  obtain ⟨kpsi, kv, kx, ky⟩ := key t ht
  refine ⟨kpsi, kv, kx, ky, ?_⟩
  rw [kx, ky]
  ring

/-- C9, witness: the vector `straightVars` (speed 2 along the x axis, no
steering, no acceleration), read at the last step. -/
theorem FG_eval_straight_line_witness :
    (straightVars (psi_start N + 14) : ℝ) = straightVars (psi_start N + 0) ∧
    (straightVars (v_start N + 14) : ℝ) = straightVars (v_start N + 0) + 0 * (14 : ℕ) * 0.05 ∧
    (straightVars (x_start N + 14) : ℝ) = straightVars (x_start N + 0)
      + Real.cos (straightVars (psi_start N + 0)) * 0.05
        * ∑ s in Finset.range 14, straightVars (v_start N + s) ∧
    (straightVars (y_start N + 14) : ℝ) = straightVars (y_start N + 0)
      + Real.sin (straightVars (psi_start N + 0)) * 0.05
        * ∑ s in Finset.range 14, straightVars (v_start N + s) ∧
    ((straightVars (x_start N + 14) : ℝ) - straightVars (x_start N + 0))
        * Real.sin (straightVars (psi_start N + 0))
      = ((straightVars (y_start N + 14) : ℝ) - straightVars (y_start N + 0))
        * Real.cos (straightVars (psi_start N + 0)) :=
  FG_eval_straight_line [1, 2, 3, 4] 60 (fun _ => 0) straightVars 0
    (by
      intro t h1 h2
      have ht : t < 15 := by have hN : N = 15 := rfl; omega
      obtain ⟨ex, ey, epsi, ev, -, -⟩ :=
        FG_eval_entries Real.cos Real.sin Real.arctan [1, 2, 3, 4] 60 (fun _ => 0)
          straightVars t h1 ht
      rw [ex, ey, epsi, ev]
      interval_cases t <;>
        simp [straightVars, x_start_N, y_start_N, psi_start_N, v_start_N, delta_start_N,
          a_start_N, dt, Lf] <;> norm_num)
    (by
      intro t ht
      have hN : N = 15 := rfl
      have h2 : ¬ (90 + t < 15) := by omega
      have h3 : ¬ (45 ≤ 90 + t ∧ 90 + t < 60) := by omega
      simp [straightVars, delta_start_N, h2, h3])
    (by
      intro t ht
      have h2 : ¬ (104 + t < 15) := by omega
      have h3 : ¬ (45 ≤ 104 + t ∧ 104 + t < 60) := by omega
      simp [straightVars, a_start_N, h2, h3])
    14 (by decide)

/-! ## Theorems: `MPC::Solve` and the command -/

/-- A loop that assigns a constant to entry `i` of each of two vectors, for
every `i` of its range: the first vector afterwards. -/
theorem forLoop_fill_fst {β : Type} (lo hi : Nat) (c1 c2 : β)
    (s : (Nat → β) × (Nat → β)) (i : Nat) :
    (forLoop lo hi (fun i lu => (setAt lu.1 i c1, setAt lu.2 i c2)) s).1 i =
      if lo ≤ i ∧ i < hi then c1 else s.1 i := by
  split_ifs with h
  · exact forLoop_writes (fun lu : (Nat → β) × (Nat → β) => lu.1 i) lo hi _ s i c1 h.1 h.2
      (fun u => by simp [setAt])
      (fun t _ _ hne u => by simp [setAt, Ne.symm hne])
  · exact forLoop_preserves (fun lu : (Nat → β) × (Nat → β) => lu.1 i) lo hi _ s
      (fun t h1 h2 u => by
        have hne : i ≠ t := by omega
        simp [setAt, hne])

/-- A loop that assigns a constant to entry `i` of each of two vectors, for
every `i` of its range: the second vector afterwards. -/
theorem forLoop_fill_snd {β : Type} (lo hi : Nat) (c1 c2 : β)
    (s : (Nat → β) × (Nat → β)) (i : Nat) :
    (forLoop lo hi (fun i lu => (setAt lu.1 i c1, setAt lu.2 i c2)) s).2 i =
      if lo ≤ i ∧ i < hi then c2 else s.2 i := by
  split_ifs with h
  · exact forLoop_writes (fun lu : (Nat → β) × (Nat → β) => lu.2 i) lo hi _ s i c2 h.1 h.2
      (fun u => by simp [setAt])
      (fun t _ _ hne u => by simp [setAt, Ne.symm hne])
  · exact forLoop_preserves (fun lu : (Nat → β) × (Nat → β) => lu.2 i) lo hi _ s
      (fun t h1 h2 u => by
        have hne : i ≠ t := by omega
        simp [setAt, hne])

/-- The variable bounds of the problem `MPC::Solve` builds, entry by entry. -/
theorem Solve_problem_vars_bounds {α : Type} [LinearOrderedField α] [FloorRing α]
    (cos sin atan : α → α) (M_PI : α) (state coeffs : List α) (i : Nat) :
    (Solve.problem cos sin atan M_PI state coeffs).vars_lowerbound i =
      (if a_start N ≤ i ∧ i < n_vars N then -1.0
       else if delta_start N ≤ i ∧ i < a_start N then -0.436332
       else if 0 ≤ i ∧ i < delta_start N then -1.0e19 else 0) ∧
    (Solve.problem cos sin atan M_PI state coeffs).vars_upperbound i =
      (if a_start N ≤ i ∧ i < n_vars N then 1.0
       else if delta_start N ≤ i ∧ i < a_start N then 0.436332
       else if 0 ≤ i ∧ i < delta_start N then 1.0e19 else 0) := by
  simp only [Solve.problem]
  rw [forLoop_fill_fst, forLoop_fill_fst, forLoop_fill_fst, forLoop_fill_snd,
    forLoop_fill_snd, forLoop_fill_snd]
  exact ⟨rfl, rfl⟩

/-- C6: over the reals, for every point and every vehicle pose,
`transformToCar` undoes `transformToMap` and `transformToMap` undoes
`transformToCar`. -/
theorem transform_round_trip (x y x_car y_car sigma : ℝ) :
    transformToCar Real.cos Real.sin
      (transformToMap Real.cos Real.sin x y x_car y_car sigma).1
      (transformToMap Real.cos Real.sin x y x_car y_car sigma).2 x_car y_car sigma = (x, y) ∧
    transformToMap Real.cos Real.sin
      (transformToCar Real.cos Real.sin x y x_car y_car sigma).1
      (transformToCar Real.cos Real.sin x y x_car y_car sigma).2 x_car y_car sigma = (x, y) := by
  have h := Real.cos_sq_add_sin_sq sigma
  simp only [transformToCar, transformToMap, Prod.mk.injEq]
  refine ⟨⟨?_, ?_⟩, ⟨?_, ?_⟩⟩
  · linear_combination x * h
  · linear_combination y * h
  · linear_combination (x - x_car) * h
  · linear_combination (y - y_car) * h

/-- C7: the step offset `floor(latency/dt)` that `Solve` computes is 2, and
for every solver the nine values `Solve` returns are the entries at index 3 of
the x, y, psi, v, cte and epsi blocks of the solution, the entries at index 2
of the steering and acceleration blocks, and the objective value, in this
order. -/
theorem Solve_latency_extraction :
    Solve.step ℝ = 2 ∧
    ∀ (solver : Problem ℝ → solve_result ℝ) (state coeffs : List ℝ),
      (Solve Real.cos Real.sin Real.arctan Real.pi solver state coeffs).solution =
        solver (Solve.problem Real.cos Real.sin Real.arctan Real.pi state coeffs) ∧
      (Solve Real.cos Real.sin Real.arctan Real.pi solver state coeffs).ret =
        [(solver (Solve.problem Real.cos Real.sin Real.arctan Real.pi state coeffs)).x
            (x_start N + 3),
         (solver (Solve.problem Real.cos Real.sin Real.arctan Real.pi state coeffs)).x
            (y_start N + 3),
         (solver (Solve.problem Real.cos Real.sin Real.arctan Real.pi state coeffs)).x
            (psi_start N + 3),
         (solver (Solve.problem Real.cos Real.sin Real.arctan Real.pi state coeffs)).x
            (v_start N + 3),
         (solver (Solve.problem Real.cos Real.sin Real.arctan Real.pi state coeffs)).x
            (cte_start N + 3),
         (solver (Solve.problem Real.cos Real.sin Real.arctan Real.pi state coeffs)).x
            (epsi_start N + 3),
         (solver (Solve.problem Real.cos Real.sin Real.arctan Real.pi state coeffs)).x
            (delta_start N + 2),
         (solver (Solve.problem Real.cos Real.sin Real.arctan Real.pi state coeffs)).x
            (a_start N + 2),
         (solver (Solve.problem Real.cos Real.sin Real.arctan Real.pi state coeffs)).obj_value] := by
  have hstep : Solve.step ℝ = 2 := by
    simp only [Solve.step, dt]
    norm_num
  refine ⟨hstep, fun solver state coeffs => ⟨rfl, ?_⟩⟩
  simp only [Solve, hstep]
  rfl

/-- C8: for every coefficient vector `(c0, c1, c2, c3)` and current speed `v`,
the target speed `Solve` stores in `ref_v` is `(max_v - min_v)*(1 -
|atan(f'(L))|*dec_factor/pi) + min_v` with `L = v*dt*N` and `f'(x) = c1 +
2*c2*x + 3*c3*x^2`; it is `max_v` when `f'(L) = 0`, and `(max_v - min_v)/2 +
min_v` when `atan(f'(L)) = pi/(2*dec_factor)`. -/
theorem Solve_ref_v_formula (solver : Problem ℝ → solve_result ℝ)
    (x y psi v cte epsi c0 c1 c2 c3 : ℝ) :
    (Solve Real.cos Real.sin Real.arctan Real.pi solver [x, y, psi, v, cte, epsi]
        [c0, c1, c2, c3]).ref_v =
      (max_v ℝ - min_v ℝ) * (1 - |Real.arctan (c1 + 2 * c2 * (v * dt ℝ * (N : ℝ))
          + 3 * c3 * (v * dt ℝ * (N : ℝ)) ^ 2)| * dec_factor ℝ / Real.pi) + min_v ℝ ∧
    (c1 + 2 * c2 * (v * dt ℝ * (N : ℝ)) + 3 * c3 * (v * dt ℝ * (N : ℝ)) ^ 2 = 0 →
      (Solve Real.cos Real.sin Real.arctan Real.pi solver [x, y, psi, v, cte, epsi]
        [c0, c1, c2, c3]).ref_v = max_v ℝ) ∧
    (Real.arctan (c1 + 2 * c2 * (v * dt ℝ * (N : ℝ)) + 3 * c3 * (v * dt ℝ * (N : ℝ)) ^ 2)
        = Real.pi / (2 * dec_factor ℝ) →
      (Solve Real.cos Real.sin Real.arctan Real.pi solver [x, y, psi, v, cte, epsi]
        [c0, c1, c2, c3]).ref_v = (max_v ℝ - min_v ℝ) / 2 + min_v ℝ) := by
  have hslope : 3 * c3 * (v * dt ℝ * (N : ℝ)) * (v * dt ℝ * (N : ℝ))
      + 2 * c2 * (v * dt ℝ * (N : ℝ)) + c1
      = c1 + 2 * c2 * (v * dt ℝ * (N : ℝ)) + 3 * c3 * (v * dt ℝ * (N : ℝ)) ^ 2 := by ring
  have hform : (Solve Real.cos Real.sin Real.arctan Real.pi solver [x, y, psi, v, cte, epsi]
        [c0, c1, c2, c3]).ref_v =
      (max_v ℝ - min_v ℝ) * (1 - |Real.arctan (c1 + 2 * c2 * (v * dt ℝ * (N : ℝ))
          + 3 * c3 * (v * dt ℝ * (N : ℝ)) ^ 2)| * dec_factor ℝ / Real.pi) + min_v ℝ := by
    simp only [Solve, Solve.ref_v, List.getD_cons_zero, List.getD_cons_succ]
    rw [hslope]
  refine ⟨hform, ?_, ?_⟩
  · intro h0
    rw [hform, h0]
    simp
  · intro hq
    have hpi : Real.pi ≠ 0 := Real.pi_ne_zero
    have hpos : 0 ≤ Real.pi / (2 * dec_factor ℝ) := by
      have := Real.pi_pos
      simp only [dec_factor]
      positivity
    rw [hform, hq, abs_of_nonneg hpos]
    simp only [dec_factor]
    field_simp
    ring

/-- C8, witness: the flat curve `0` has slope 0, and the line `y = x` has
slope 1, whose arc tangent is `pi/4 = pi/(2*dec_factor)`. -/
theorem Solve_ref_v_formula_witness :
    (Solve Real.cos Real.sin Real.arctan Real.pi
        (fun p => ⟨status_type.success, p.vars, 0⟩) [0, 0, 0, 50, 0, 0]
        [0, 0, 0, 0]).ref_v = max_v ℝ ∧
    (Solve Real.cos Real.sin Real.arctan Real.pi
        (fun p => ⟨status_type.success, p.vars, 0⟩) [0, 0, 0, 50, 0, 0]
        [0, 1, 0, 0]).ref_v = (max_v ℝ - min_v ℝ) / 2 + min_v ℝ :=
  ⟨(Solve_ref_v_formula (fun p => ⟨status_type.success, p.vars, 0⟩)
      0 0 0 50 0 0 0 0 0 0).2.1 (by simp),
   (Solve_ref_v_formula (fun p => ⟨status_type.success, p.vars, 0⟩)
      0 0 0 50 0 0 0 1 0 0).2.2 (by
        simp only [dec_factor]
        rw [show (1 : ℝ) + 2 * 0 * (50 * dt ℝ * (N : ℝ)) + 3 * 0 * (50 * dt ℝ * (N : ℝ)) ^ 2
          = 1 by ring, Real.arctan_one]
        norm_num)⟩

/-- C10: for every solver whose solution respects, at the steering and
acceleration entries, the variable bounds of the problem `Solve` hands over,
the `steering_angle` and the `throttle` the message handler emits lie in
`[-1, 1]`. -/
theorem command_in_unit_interval (solver : Problem ℝ → solve_result ℝ)
    (state coeffs : List ℝ)
    (hb : ∀ i, delta_start N ≤ i → i < n_vars N →
      (Solve.problem Real.cos Real.sin Real.arctan Real.pi state coeffs).vars_lowerbound i
        ≤ (solver (Solve.problem Real.cos Real.sin Real.arctan Real.pi state coeffs)).x i ∧
      (solver (Solve.problem Real.cos Real.sin Real.arctan Real.pi state coeffs)).x i
        ≤ (Solve.problem Real.cos Real.sin Real.arctan Real.pi state coeffs).vars_upperbound i) :
    -1 ≤ (onMessage.command Real.pi
        (Solve Real.cos Real.sin Real.arctan Real.pi solver state coeffs).ret).1 ∧
    (onMessage.command Real.pi
        (Solve Real.cos Real.sin Real.arctan Real.pi solver state coeffs).ret).1 ≤ 1 ∧
    -1 ≤ (onMessage.command Real.pi
        (Solve Real.cos Real.sin Real.arctan Real.pi solver state coeffs).ret).2 ∧
    (onMessage.command Real.pi
        (Solve Real.cos Real.sin Real.arctan Real.pi solver state coeffs).ret).2 ≤ 1 := by
  have hstep : Solve.step ℝ = 2 := by
    simp only [Solve.step, dt]
    norm_num
  have hd := hb (delta_start N + 2) (by decide) (by decide)
  have ha := hb (a_start N + 2) (by decide) (by decide)
  rw [(Solve_problem_vars_bounds Real.cos Real.sin Real.arctan Real.pi state coeffs _).1,
    (Solve_problem_vars_bounds Real.cos Real.sin Real.arctan Real.pi state coeffs _).2] at hd ha
  rw [if_neg (by decide), if_pos (by decide), if_neg (by decide), if_pos (by decide)] at hd
  rw [if_pos (by decide), if_pos (by decide)] at ha
  simp only [onMessage.command, Solve, hstep, deg2rad, pi]
  have h2 : (2 : ℤ).toNat = 2 := rfl
  simp only [h2, List.getD_cons_zero, List.getD_cons_succ]
  have hpi := Real.pi_gt_d6
  have hden : (0 : ℝ) < 25 * Real.pi / 180 := by positivity
  have hden2 : (0.436332 : ℝ) < 25 * Real.pi / 180 := by
    rw [lt_div_iff₀ (by norm_num)]
    norm_num
    linarith
  refine ⟨?_, ?_, ?_, ?_⟩
  · rw [le_div_iff₀ hden]; linarith [hd.1, hd.2]
  · rw [div_le_iff₀ hden]; linarith [hd.1, hd.2]
  · linarith [ha.1]
  · linarith [ha.2]

/-- C10, witness: the solver that returns the upper bounds as its solution. -/
theorem command_in_unit_interval_witness :
    -1 ≤ (onMessage.command Real.pi
        (Solve Real.cos Real.sin Real.arctan Real.pi
          (fun p => ⟨status_type.success, p.vars_upperbound, 0⟩)
          [0, 0, 0, 50, 0, 0] [0, 0, 0, 0]).ret).1 ∧
    (onMessage.command Real.pi
        (Solve Real.cos Real.sin Real.arctan Real.pi
          (fun p => ⟨status_type.success, p.vars_upperbound, 0⟩)
          [0, 0, 0, 50, 0, 0] [0, 0, 0, 0]).ret).1 ≤ 1 ∧
    -1 ≤ (onMessage.command Real.pi
        (Solve Real.cos Real.sin Real.arctan Real.pi
          (fun p => ⟨status_type.success, p.vars_upperbound, 0⟩)
          [0, 0, 0, 50, 0, 0] [0, 0, 0, 0]).ret).2 ∧
    (onMessage.command Real.pi
        (Solve Real.cos Real.sin Real.arctan Real.pi
          (fun p => ⟨status_type.success, p.vars_upperbound, 0⟩)
          [0, 0, 0, 50, 0, 0] [0, 0, 0, 0]).ret).2 ≤ 1 :=
  command_in_unit_interval (fun p => ⟨status_type.success, p.vars_upperbound, 0⟩)
    [0, 0, 0, 50, 0, 0] [0, 0, 0, 0]
    (by
      intro i h1 h2
      refine ⟨?_, le_refl _⟩
      show (Solve.problem Real.cos Real.sin Real.arctan Real.pi [0, 0, 0, 50, 0, 0]
          [0, 0, 0, 0]).vars_lowerbound i
        ≤ (Solve.problem Real.cos Real.sin Real.arctan Real.pi [0, 0, 0, 50, 0, 0]
          [0, 0, 0, 0]).vars_upperbound i
      rw [(Solve_problem_vars_bounds Real.cos Real.sin Real.arctan Real.pi _ _ i).1,
        (Solve_problem_vars_bounds Real.cos Real.sin Real.arctan Real.pi _ _ i).2]
      split_ifs <;> norm_num)

/-! ## Theorems: the bounds of the problem -/

/-- The constraint bounds of the problem `MPC::Solve` builds, entry by entry. -/
theorem Solve_problem_constraints_bounds {α : Type} [LinearOrderedField α] [FloorRing α]
    (cos sin atan : α → α) (M_PI : α) (state coeffs : List α) (i : Nat) :
    (Solve.problem cos sin atan M_PI state coeffs).constraints_lowerbound i =
      (if i = epsi_start N then state.getD 5 0
       else if i = cte_start N then state.getD 4 0
       else if i = v_start N then state.getD 3 0
       else if i = psi_start N then state.getD 2 0
       else if i = y_start N then state.getD 1 0
       else if i = x_start N then state.getD 0 0
       else if 0 ≤ i ∧ i < n_constraints N then 0 else 0) ∧
    (Solve.problem cos sin atan M_PI state coeffs).constraints_upperbound i =
      (if i = epsi_start N then state.getD 5 0
       else if i = cte_start N then state.getD 4 0
       else if i = v_start N then state.getD 3 0
       else if i = psi_start N then state.getD 2 0
       else if i = y_start N then state.getD 1 0
       else if i = x_start N then state.getD 0 0
       else if 0 ≤ i ∧ i < n_constraints N then 0 else 0) := by
  simp only [Solve.problem, setAt]
  rw [forLoop_fill_fst, forLoop_fill_snd]
  exact ⟨rfl, rfl⟩

/-- The entry `1 + b` of a state block `b` holds on exit the first entry of
the block of the decision vector. -/
theorem FG_eval_apply_initial {α : Type} [Field α] (cos sin atan : α → α)
    (coeffs : List α) (ref_v : α) (fg vars : Nat → α) (b : Nat)
    (hb : b = 0 ∨ b = 15 ∨ b = 30 ∨ b = 45 ∨ b = 60 ∨ b = 75) :
    FG_eval cos sin atan coeffs ref_v fg vars (1 + b) = vars b := by
  unfold FG_eval
  rw [forLoop_preserves (fun g : Nat → α => g (1 + b)) 1 N _ _ (fun k hk hk2 u =>
    constraints_other cos sin atan coeffs vars u k (1 + b) (by
      have hk3 : k < 15 := hk2
      omega))]
  rcases hb with e | e | e | e | e | e <;> subst e <;>
    simp [FG_eval.initial, setAt, x_start_N, y_start_N, psi_start_N, v_start_N,
      cte_start_N, epsi_start_N]

/-- C11: for every index `i` of the decision vector, the variable bounds
`Solve` builds are `[-1e19, 1e19]` when `i < delta_start`,
`[-0.436332, 0.436332]` when `delta_start <= i < a_start`, and `[-1, 1]` when
`a_start <= i < n_vars`; exactly one of the three cases applies to `i`. -/
theorem Solve_vars_bounds (state coeffs : List ℝ) (i : ℕ) (hi : i < n_vars N) :
    (i < delta_start N →
      (Solve.problem Real.cos Real.sin Real.arctan Real.pi state coeffs).vars_lowerbound i
        = -1.0e19 ∧
      (Solve.problem Real.cos Real.sin Real.arctan Real.pi state coeffs).vars_upperbound i
        = 1.0e19) ∧
    (delta_start N ≤ i → i < a_start N →
      (Solve.problem Real.cos Real.sin Real.arctan Real.pi state coeffs).vars_lowerbound i
        = -0.436332 ∧
      (Solve.problem Real.cos Real.sin Real.arctan Real.pi state coeffs).vars_upperbound i
        = 0.436332) ∧
    (a_start N ≤ i → i < n_vars N →
      (Solve.problem Real.cos Real.sin Real.arctan Real.pi state coeffs).vars_lowerbound i
        = -1 ∧
      (Solve.problem Real.cos Real.sin Real.arctan Real.pi state coeffs).vars_upperbound i
        = 1) ∧
    ((i < delta_start N ∧ ¬ (delta_start N ≤ i ∧ i < a_start N) ∧ ¬ (a_start N ≤ i ∧ i < n_vars N))
      ∨ (¬ (i < delta_start N) ∧ (delta_start N ≤ i ∧ i < a_start N)
          ∧ ¬ (a_start N ≤ i ∧ i < n_vars N))
      ∨ (¬ (i < delta_start N) ∧ ¬ (delta_start N ≤ i ∧ i < a_start N)
          ∧ (a_start N ≤ i ∧ i < n_vars N))) := by
  obtain ⟨hl, hu⟩ :=
    Solve_problem_vars_bounds Real.cos Real.sin Real.arctan Real.pi state coeffs i
  rw [hl, hu]
  simp only [delta_start_N, a_start_N, n_vars_N] at hi ⊢
  refine ⟨?_, ?_, ?_, by omega⟩
  · intro h
    rw [if_neg (by omega), if_neg (by omega), if_pos (by omega), if_neg (by omega),
      if_neg (by omega), if_pos (by omega)]
    exact ⟨rfl, rfl⟩
  · intro h1 h2
    rw [if_neg (by omega), if_pos (by omega), if_neg (by omega), if_pos (by omega)]
    exact ⟨rfl, rfl⟩
  · intro h1 h2
    rw [if_pos (by omega), if_pos (by omega)]
    norm_num

/-- C11, witness: index 100, in the steering block. -/
theorem Solve_vars_bounds_witness :
    (Solve.problem Real.cos Real.sin Real.arctan Real.pi [0, 0, 0, 50, 0, 0]
        [0, 0, 0, 0]).vars_lowerbound 100 = -0.436332 ∧
    (Solve.problem Real.cos Real.sin Real.arctan Real.pi [0, 0, 0, 50, 0, 0]
        [0, 0, 0, 0]).vars_upperbound 100 = 0.436332 :=
  (Solve_vars_bounds [0, 0, 0, 50, 0, 0] [0, 0, 0, 0] 100 (by decide)).2.1
    (by decide) (by decide)

/-- C12: for every measured state `(x, y, psi, v, cte, epsi)` and every index
`i` of the constraint bounds, the lower and the upper bound `Solve` builds are
equal at `i`; they are the measured x, y, psi, v, cte, epsi at the first index
of the matching state block, and 0 at every other index. -/
theorem Solve_constraints_bounds (x y psi v cte epsi : ℝ) (coeffs : List ℝ) (i : ℕ)
    (_hi : i < n_constraints N) :
    (Solve.problem Real.cos Real.sin Real.arctan Real.pi [x, y, psi, v, cte, epsi]
        coeffs).constraints_lowerbound i =
      (Solve.problem Real.cos Real.sin Real.arctan Real.pi [x, y, psi, v, cte, epsi]
        coeffs).constraints_upperbound i ∧
    (Solve.problem Real.cos Real.sin Real.arctan Real.pi [x, y, psi, v, cte, epsi]
        coeffs).constraints_lowerbound i =
      (if i = x_start N then x else if i = y_start N then y
       else if i = psi_start N then psi else if i = v_start N then v
       else if i = cte_start N then cte else if i = epsi_start N then epsi else 0) := by
  obtain ⟨hl, hu⟩ := Solve_problem_constraints_bounds Real.cos Real.sin Real.arctan Real.pi
    [x, y, psi, v, cte, epsi] coeffs i
  rw [hl, hu]
  refine ⟨rfl, ?_⟩
  simp only [x_start_N, y_start_N, psi_start_N, v_start_N, cte_start_N, epsi_start_N,
    List.getD_cons_zero, List.getD_cons_succ, ite_self]
  split_ifs <;> first | rfl | omega

/-- C12, witness: the first index of the v block, with measured speed 50. -/
theorem Solve_constraints_bounds_witness :
    (Solve.problem Real.cos Real.sin Real.arctan Real.pi [1, 2, 3, 50, 4, 5]
        [0, 0, 0, 0]).constraints_lowerbound 45 =
      (Solve.problem Real.cos Real.sin Real.arctan Real.pi [1, 2, 3, 50, 4, 5]
        [0, 0, 0, 0]).constraints_upperbound 45 ∧
    (Solve.problem Real.cos Real.sin Real.arctan Real.pi [1, 2, 3, 50, 4, 5]
        [0, 0, 0, 0]).constraints_lowerbound 45 =
      (if 45 = x_start N then (1 : ℝ) else if 45 = y_start N then 2
       else if 45 = psi_start N then 3 else if 45 = v_start N then 50
       else if 45 = cte_start N then 4 else if 45 = epsi_start N then 5 else 0) :=
  Solve_constraints_bounds 1 2 3 50 4 5 [0, 0, 0, 0] 45 (by decide)

/-- The constraint values of `straightVars` for the zero cubic: the first v
constraint is the speed 2, every other constraint is 0. -/
theorem FG_eval_straightVars (ref_v : ℝ) (fg : ℕ → ℝ) (i : ℕ) (hi : i < 90) :
    FG_eval Real.cos Real.sin Real.arctan [0, 0, 0, 0] ref_v fg straightVars (1 + i) =
      if i = 45 then 2 else 0 := by
  obtain ⟨b, t, hb, ht, rfl⟩ : ∃ b t, (b = 0 ∨ b = 15 ∨ b = 30 ∨ b = 45 ∨ b = 60 ∨ b = 75)
      ∧ t < 15 ∧ i = b + t := ⟨i / 15 * 15, i % 15, by omega, by omega, by omega⟩
  rcases Nat.eq_zero_or_pos t with h0 | h1
  · subst h0
    rw [Nat.add_zero, FG_eval_apply_initial _ _ _ _ _ _ _ b hb]
    rcases hb with e | e | e | e | e | e <;> subst e <;> norm_num [straightVars]
  · obtain ⟨ex, ey, epsi, ev, ecte, eepsi⟩ :=
      FG_eval_entries Real.cos Real.sin Real.arctan [0, 0, 0, 0] ref_v fg straightVars t h1 ht
    rw [x_start_N] at ex
    rw [y_start_N] at ey
    rw [psi_start_N] at epsi
    rw [v_start_N] at ev
    rw [cte_start_N] at ecte
    rw [epsi_start_N] at eepsi
    rw [← Nat.add_assoc]
    rcases hb with e | e | e | e | e | e <;> subst e
    · rw [ex, if_neg (by omega)]
      interval_cases t <;>
        simp [straightVars, x_start_N, y_start_N, psi_start_N, v_start_N, delta_start_N,
          a_start_N, dt, Lf] <;> norm_num
    · rw [ey, if_neg (by omega)]
      interval_cases t <;>
        simp [straightVars, x_start_N, y_start_N, psi_start_N, v_start_N, delta_start_N,
          a_start_N, dt, Lf]
    · rw [epsi, if_neg (by omega)]
      interval_cases t <;>
        simp [straightVars, x_start_N, y_start_N, psi_start_N, v_start_N, delta_start_N,
          a_start_N, dt, Lf]
    · rw [ev, if_neg (by omega)]
      interval_cases t <;>
        simp [straightVars, x_start_N, y_start_N, psi_start_N, v_start_N, delta_start_N,
          a_start_N, dt, Lf]
    · rw [ecte, if_neg (by omega)]
      interval_cases t <;>
        simp [straightVars, x_start_N, y_start_N, psi_start_N, v_start_N, cte_start_N,
          delta_start_N, a_start_N, dt, Lf]
    · rw [eepsi, if_neg (by omega)]
      interval_cases t <;>
        simp [straightVars, x_start_N, y_start_N, psi_start_N, v_start_N, epsi_start_N,
          delta_start_N, a_start_N, dt, Lf]

/-- C19: for every measured state and every decision vector whose constraint
values, as `FG_eval` computes them, lie within the constraint bounds `Solve`
builds, the first entry of each of the six state blocks is the matching
component of the measured state. -/
theorem constraints_pin_initial_state (x y psi v cte epsi : ℝ) (coeffs : List ℝ)
    (fg vars : ℕ → ℝ)
    (h : ∀ i, i < n_constraints N →
      (Solve.problem Real.cos Real.sin Real.arctan Real.pi [x, y, psi, v, cte, epsi]
          coeffs).constraints_lowerbound i
        ≤ (Solve.problem Real.cos Real.sin Real.arctan Real.pi [x, y, psi, v, cte, epsi]
          coeffs).fg_eval fg vars (1 + i) ∧
      (Solve.problem Real.cos Real.sin Real.arctan Real.pi [x, y, psi, v, cte, epsi]
          coeffs).fg_eval fg vars (1 + i)
        ≤ (Solve.problem Real.cos Real.sin Real.arctan Real.pi [x, y, psi, v, cte, epsi]
          coeffs).constraints_upperbound i) :
    vars (x_start N) = x ∧ vars (y_start N) = y ∧ vars (psi_start N) = psi ∧
    vars (v_start N) = v ∧ vars (cte_start N) = cte ∧ vars (epsi_start N) = epsi := by
  have hfg : (Solve.problem Real.cos Real.sin Real.arctan Real.pi [x, y, psi, v, cte, epsi]
      coeffs).fg_eval = FG_eval Real.cos Real.sin Real.arctan coeffs
        (Solve.ref_v Real.arctan Real.pi [x, y, psi, v, cte, epsi] coeffs) := rfl
  have key : ∀ b, (b = 0 ∨ b = 15 ∨ b = 30 ∨ b = 45 ∨ b = 60 ∨ b = 75) →
      vars b = (Solve.problem Real.cos Real.sin Real.arctan Real.pi [x, y, psi, v, cte, epsi]
          coeffs).constraints_lowerbound b ∧
      (Solve.problem Real.cos Real.sin Real.arctan Real.pi [x, y, psi, v, cte, epsi]
          coeffs).constraints_lowerbound b =
        (Solve.problem Real.cos Real.sin Real.arctan Real.pi [x, y, psi, v, cte, epsi]
          coeffs).constraints_upperbound b := by
    intro b hb
    have hlu : (Solve.problem Real.cos Real.sin Real.arctan Real.pi [x, y, psi, v, cte, epsi]
          coeffs).constraints_lowerbound b =
        (Solve.problem Real.cos Real.sin Real.arctan Real.pi [x, y, psi, v, cte, epsi]
          coeffs).constraints_upperbound b := by
      rw [(Solve_problem_constraints_bounds Real.cos Real.sin Real.arctan Real.pi _ _ b).1,
        (Solve_problem_constraints_bounds Real.cos Real.sin Real.arctan Real.pi _ _ b).2]
    have hb2 := h b (by rw [n_constraints_N]; omega)
    rw [hfg, FG_eval_apply_initial _ _ _ _ _ _ _ b hb, ← hlu] at hb2
    exact ⟨le_antisymm hb2.2 hb2.1, hlu⟩
  have hl : ∀ b, (Solve.problem Real.cos Real.sin Real.arctan Real.pi [x, y, psi, v, cte, epsi]
          coeffs).constraints_lowerbound b =
      (if b = epsi_start N then epsi else if b = cte_start N then cte
       else if b = v_start N then v else if b = psi_start N then psi
       else if b = y_start N then y else if b = x_start N then x else 0) := by
    intro b
    rw [(Solve_problem_constraints_bounds Real.cos Real.sin Real.arctan Real.pi _ _ b).1]
    simp only [List.getD_cons_zero, List.getD_cons_succ, ite_self]
  simp only [x_start_N, y_start_N, psi_start_N, v_start_N, cte_start_N, epsi_start_N] at hl ⊢
  refine ⟨?_, ?_, ?_, ?_, ?_, ?_⟩
  · rw [(key 0 (by omega)).1, hl]; norm_num
  · rw [(key 15 (by omega)).1, hl]; norm_num
  · rw [(key 30 (by omega)).1, hl]; norm_num
  · rw [(key 45 (by omega)).1, hl]; norm_num
  · rw [(key 60 (by omega)).1, hl]; norm_num
  · rw [(key 75 (by omega)).1, hl]; norm_num

/-- C19, witness: the measured state `(0, 0, 0, 2, 0, 0)`, the zero cubic and
the vector `straightVars`, which satisfies every constraint. -/
theorem constraints_pin_initial_state_witness :
    (straightVars (x_start N) : ℝ) = 0 ∧ (straightVars (y_start N) : ℝ) = 0 ∧
    (straightVars (psi_start N) : ℝ) = 0 ∧ (straightVars (v_start N) : ℝ) = 2 ∧
    (straightVars (cte_start N) : ℝ) = 0 ∧ (straightVars (epsi_start N) : ℝ) = 0 :=
  constraints_pin_initial_state 0 0 0 2 0 0 [0, 0, 0, 0] (fun _ => 0) straightVars
    (by
      intro i hi
      have hi2 : i < 90 := by rw [n_constraints_N] at hi; exact hi
      have hfg : (Solve.problem Real.cos Real.sin Real.arctan Real.pi [0, 0, 0, 2, 0, 0]
          [0, 0, 0, 0]).fg_eval = FG_eval Real.cos Real.sin Real.arctan [0, 0, 0, 0]
            (Solve.ref_v Real.arctan Real.pi [0, 0, 0, 2, 0, 0] [0, 0, 0, 0]) := rfl
      rw [hfg, FG_eval_straightVars _ _ i hi2,
        (Solve_problem_constraints_bounds Real.cos Real.sin Real.arctan Real.pi _ _ i).1,
        (Solve_problem_constraints_bounds Real.cos Real.sin Real.arctan Real.pi _ _ i).2]
      simp only [x_start_N, y_start_N, psi_start_N, v_start_N, cte_start_N, epsi_start_N,
        List.getD_cons_zero, List.getD_cons_succ, ite_self]
      split_ifs <;> first | omega | norm_num)

/-! ## Theorems: the speed regulator, the status and the latency offset -/

/-- The target speed of lines 188-195 is at least `min_v` and at most `max_v`:
the arc tangent is at most `pi/2` in absolute value. -/
theorem Solve_ref_v_range (state coeffs : List ℝ) :
    min_v ℝ ≤ Solve.ref_v Real.arctan Real.pi state coeffs ∧
    Solve.ref_v Real.arctan Real.pi state coeffs ≤ max_v ℝ := by
  simp only [Solve.ref_v, max_v, min_v, dec_factor]
  generalize 3 * coeffs.getD 3 0 * (state.getD 3 0 * dt ℝ * (N : ℝ))
      * (state.getD 3 0 * dt ℝ * (N : ℝ))
    + 2 * coeffs.getD 2 0 * (state.getD 3 0 * dt ℝ * (N : ℝ)) + coeffs.getD 1 0 = d
  have hpi := Real.pi_pos
  have h1 : |Real.arctan d| ≤ Real.pi / 2 :=
    abs_le.mpr ⟨by linarith [Real.neg_pi_div_two_lt_arctan d],
      le_of_lt (Real.arctan_lt_pi_div_two d)⟩
  have h0 : 0 ≤ |Real.arctan d| := abs_nonneg _
  have hq1 : |Real.arctan d| * 2.0 / Real.pi ≤ 1 := by
    rw [div_le_one hpi]; linarith
  have hq0 : 0 ≤ |Real.arctan d| * 2.0 / Real.pi := by positivity
  constructor <;> norm_num at hq0 hq1 ⊢ <;> nlinarith

/-- C17 (as amended): with `max_v = 100`, `min_v = 45` and `dec_factor = 2`,
for every state and every coefficient vector the target speed `ref_v` that
`Solve` computes lies in `[min_v, max_v]`. -/
theorem Solve_ref_v_within_bounds (solver : Problem ℝ → solve_result ℝ)
    (state coeffs : List ℝ) :
    max_v ℝ = 100 ∧ min_v ℝ = 45 ∧ dec_factor ℝ = 2 ∧
    min_v ℝ ≤ (Solve Real.cos Real.sin Real.arctan Real.pi solver state coeffs).ref_v ∧
    (Solve Real.cos Real.sin Real.arctan Real.pi solver state coeffs).ref_v ≤ max_v ℝ := by
  refine ⟨by norm_num [max_v], by norm_num [min_v], by norm_num [dec_factor], ?_⟩
  exact Solve_ref_v_range state coeffs

/-- C17, counterexample: there are no coefficients and no current speed for
which the target speed `Solve` computes lies outside `[min_v, max_v]`. -/
theorem Solve_ref_v_never_outside :
    ¬ ∃ (solver : Problem ℝ → solve_result ℝ) (x y psi v cte epsi c0 c1 c2 c3 : ℝ),
      (Solve Real.cos Real.sin Real.arctan Real.pi solver [x, y, psi, v, cte, epsi]
          [c0, c1, c2, c3]).ref_v < min_v ℝ ∨
      max_v ℝ < (Solve Real.cos Real.sin Real.arctan Real.pi solver [x, y, psi, v, cte, epsi]
          [c0, c1, c2, c3]).ref_v := by
  rintro ⟨solver, x, y, psi, v, cte, epsi, c0, c1, c2, c3, h⟩
  have hr := Solve_ref_v_range [x, y, psi, v, cte, epsi] [c0, c1, c2, c3]
  have he : (Solve Real.cos Real.sin Real.arctan Real.pi solver [x, y, psi, v, cte, epsi]
      [c0, c1, c2, c3]).ref_v
      = Solve.ref_v Real.arctan Real.pi [x, y, psi, v, cte, epsi] [c0, c1, c2, c3] := rfl
  rw [he] at h
  rcases h with h | h
  · exact absurd hr.1 (not_le.mpr h)
  · exact absurd hr.2 (not_le.mpr h)

/-- C15: a solver that stops at its iteration limit, with 0.2 at the steering
entry and 0.5 at the acceleration entry that `Solve` reads: `Solve` returns
these entries and the message handler emits them as its command, as it would
after a success. -/
theorem Solve_returns_failed_result :
    (Solve Real.cos Real.sin Real.arctan Real.pi
        (fun _ => ⟨status_type.maxiter_exceeded,
          fun i => if i = 92 then 0.2 else if i = 106 then 0.5 else 0, 7⟩)
        [0, 0, 0, 50, 0, 0] [0, 0, 0, 0]).solution.status = status_type.maxiter_exceeded ∧
    (Solve Real.cos Real.sin Real.arctan Real.pi
        (fun _ => ⟨status_type.maxiter_exceeded,
          fun i => if i = 92 then 0.2 else if i = 106 then 0.5 else 0, 7⟩)
        [0, 0, 0, 50, 0, 0] [0, 0, 0, 0]).ret = [0, 0, 0, 0, 0, 0, 0.2, 0.5, 7] ∧
    onMessage.command Real.pi
      (Solve Real.cos Real.sin Real.arctan Real.pi
        (fun _ => ⟨status_type.maxiter_exceeded,
          fun i => if i = 92 then 0.2 else if i = 106 then 0.5 else 0, 7⟩)
        [0, 0, 0, 50, 0, 0] [0, 0, 0, 0]).ret = (-0.2 / (25 * Real.pi / 180), 0.5) ∧
    ∀ (solver : Problem ℝ → solve_result ℝ) (failed : status_type) (state coeffs : List ℝ),
      (Solve Real.cos Real.sin Real.arctan Real.pi
        (fun p => ⟨failed, (solver p).x, (solver p).obj_value⟩) state coeffs).ret =
      (Solve Real.cos Real.sin Real.arctan Real.pi
        (fun p => ⟨status_type.success, (solver p).x, (solver p).obj_value⟩) state coeffs).ret := by
  have hstep : Solve.step ℝ = 2 := by
    simp only [Solve.step, dt]
    norm_num
  have h2 : (2 : ℤ).toNat = 2 := rfl
  refine ⟨rfl, ?_, ?_, fun _ _ _ _ => rfl⟩
  · simp only [Solve, hstep, h2, x_start_N, y_start_N, psi_start_N, v_start_N, cte_start_N,
      epsi_start_N, delta_start_N, a_start_N]
    norm_num
  · simp only [Solve, hstep, h2, x_start_N, y_start_N, psi_start_N, v_start_N, cte_start_N,
      epsi_start_N, delta_start_N, a_start_N, onMessage.command, deg2rad, pi,
      List.getD_cons_zero, List.getD_cons_succ]
    norm_num

/-- In a layout that fits a `size_t`, an offset at or beyond `N - 1` from
`a_start` is at or beyond `n_vars`: with such a `step` the read
`solution.x[a_start + step]` of line 306 is outside the solution vector. -/
theorem a_start_add_beyond (n step : ℕ) (h1 : 1 ≤ n)
    (h2 : n * 6 + (n - 1) * 2 < 18446744073709551616) (hs : n - 1 ≤ step) :
    n_vars n ≤ a_start n + step := by
  obtain ⟨-, -, -, -, -, -, -, ha, hn⟩ := layout_of_fits n h1 h2
  rw [ha, hn]
  omega

/-! ## Theorems: `polyeval`, `polyfit` and the reference trajectory -/

/-- The value `polyeval` returns is the sum of the `coeffs[i] * x^i`. -/
theorem polyeval_eq_sum {α : Type} [Field α] (coeffs : List α) (x : α) :
    polyeval coeffs x = ∑ i in Finset.range coeffs.length, coeffs.getD i 0 * x ^ i := by
  unfold polyeval
  rw [forLoop_sum (fun r : α => r) (fun i => coeffs.getD i 0 * x ^ i) 0 coeffs.length _ _
    (fun t _ _ u => rfl), Finset.range_eq_Ico]
  norm_num

/-- The state of the loop of lines 210-215 after `m` iterations. -/
theorem reference_loop {α : Type} [Field α] (coeffs : List α) (step_x : α) (m : Nat) :
    forLoop 0 m
      (fun _ (s : List α × List α × α) =>
        (s.1 ++ [s.2.2], s.2.1 ++ [polyeval coeffs s.2.2], s.2.2 + step_x))
      (([] : List α), ([] : List α), (0.0 : α)) =
    ((List.range m).map (fun k : ℕ => (k : α) * step_x),
     (List.range m).map (fun k : ℕ => polyeval coeffs ((k : α) * step_x)),
     (m : α) * step_x) := by
  induction m with
  | zero => rw [forLoop_empty _ _ _ _ (Nat.le_refl 0)]; norm_num
  | succ k ih =>
    rw [forLoop_succ _ _ _ _ (Nat.zero_le k), ih]
    simp only [List.range_succ, List.map_append, List.map_cons, List.map_nil, Prod.mk.injEq,
      true_and]
    push_cast
    ring

/-- C20 (as amended): for every coefficient vector and every list of waypoints
in the vehicle frame, with `lastx` the x of the last waypoint, the reference
trajectory has the 15 x-values `k * (lastx/15)`, `k = 0..14`: evenly spaced by
`lastx/15`, the first is 0 and the last is `14 * (lastx/15)`; each `next_y` is
`polyeval` at the matching `next_x`, the polynomial of the coefficients. -/
theorem reference_samples (coeffs vptsx : List ℝ) :
    (onMessage.reference coeffs vptsx).1 =
      (List.range 15).map (fun k : ℕ => (k : ℝ) * (vptsx.getD (vptsx.length - 1) 0 / 15)) ∧
    (onMessage.reference coeffs vptsx).2 =
      (onMessage.reference coeffs vptsx).1.map (polyeval coeffs) ∧
    (∀ x : ℝ, polyeval coeffs x = ∑ i in Finset.range coeffs.length, coeffs.getD i 0 * x ^ i) ∧
    (onMessage.reference coeffs vptsx).1.head? = some 0 ∧
    (onMessage.reference coeffs vptsx).1.getLast? =
      some (14 * (vptsx.getD (vptsx.length - 1) 0 / 15)) := by
  have h1 : (onMessage.reference coeffs vptsx).1 =
      (List.range 15).map (fun k : ℕ => (k : ℝ) * (vptsx.getD (vptsx.length - 1) 0 / 15)) := by
    simp only [onMessage.reference]
    rw [reference_loop]
    norm_num
  have h2 : (onMessage.reference coeffs vptsx).2 =
      (List.range 15).map (fun k : ℕ => polyeval coeffs
        ((k : ℝ) * (vptsx.getD (vptsx.length - 1) 0 / 15))) := by
    simp only [onMessage.reference]
    rw [reference_loop]
    norm_num
  refine ⟨h1, ?_, polyeval_eq_sum coeffs, ?_, ?_⟩
  · rw [h2, h1, List.map_map]
    rfl
  · rw [h1]
    simp [List.range_succ]
  · rw [h1]
    simp [List.range_succ]

/-- C20, counterexample: with the waypoints `(0, 5, 10, 15)` in the vehicle
frame the x-values are `0, 1, ..., 14`; the last one is 14 and not the x of
the last waypoint, 15. -/
theorem reference_stops_short :
    (onMessage.reference [0, 1, 0, 0] [0, 5, 10, (15 : ℝ)]).1 =
      [0, 1, 2, 3, 4, 5, 6, 7, 8, 9, 10, 11, 12, 13, 14] ∧
    (onMessage.reference [0, 1, 0, 0] [0, 5, 10, (15 : ℝ)]).1.getLast? ≠
      some (([0, 5, 10, (15 : ℝ)] : List ℝ).getD 3 0) := by
  have h1 : (onMessage.reference [0, 1, 0, 0] [0, 5, 10, (15 : ℝ)]).1 =
      [0, 1, 2, 3, 4, 5, 6, 7, 8, 9, 10, 11, 12, 13, 14] := by
    simp only [onMessage.reference]
    rw [reference_loop]
    norm_num [List.range_succ]
  refine ⟨h1, ?_⟩
  rw [h1]
  norm_num

/-- C14: `polyfit` rejects its input exactly when `xvals` and `yvals` differ in
length or the order is not between 1 and the number of points minus 1; for
every other input it returns the vector that the solve returns. -/
theorem polyfit_rejects_iff (solve : ℕ → ℕ → (ℕ → ℕ → ℝ) → List ℝ → List ℝ)
    (xvals yvals : List ℝ) (order : ℤ) :
    (polyfit solve xvals yvals order = none ↔
      (xvals.length ≠ yvals.length ∨ ¬ (1 ≤ order ∧ order ≤ (xvals.length : ℤ) - 1))) ∧
    (¬ (xvals.length ≠ yvals.length ∨ ¬ (1 ≤ order ∧ order ≤ (xvals.length : ℤ) - 1)) →
      polyfit solve xvals yvals order =
        some (solve xvals.length (order + 1).toNat (polyfit.A xvals order) yvals)) := by
  unfold polyfit
  by_cases hlen : xvals.length = yvals.length
  · by_cases hord : order ≥ 1 ∧ order ≤ (xvals.length : ℤ) - 1
    · simp [hlen, hord]
    · simp [hlen, hord]
  · simp [hlen]

/-! ## Theorems: the design matrix and the least-squares fit -/

section Design

variable {α : Type} [Field α]

theorem setAt2_apply {β : Type} (A : Nat → Nat → β) (j i : Nat) (e : β) (j2 i2 : Nat) :
    setAt2 A j i e j2 i2 = if j2 = j ∧ i2 = i then e else A j2 i2 := rfl

/-- The inner loop of lines 81-83 leaves the other rows alone. -/
theorem polyfit_inner_other (x : α) (j m : Nat) (A : Nat → Nat → α) (j2 i2 : Nat)
    (h : j2 ≠ j) :
    forLoop 0 m (fun i A => setAt2 A j (i + 1) (A j i * x)) A j2 i2 = A j2 i2 :=
  forLoop_preserves (fun B : Nat → Nat → α => B j2 i2) 0 m _ A
    (fun t _ _ u => by simp [setAt2, h])

/-- The inner loop of lines 81-83 leaves column 0 alone. -/
theorem polyfit_inner_zero (x : α) (j m : Nat) (A : Nat → Nat → α) (j2 : Nat) :
    forLoop 0 m (fun i A => setAt2 A j (i + 1) (A j i * x)) A j2 0 = A j2 0 :=
  forLoop_preserves (fun B : Nat → Nat → α => B j2 0) 0 m _ A
    (fun t _ _ u => by simp [setAt2])

/-- The inner loop of lines 81-83 fills row `j` with the powers of `x`, once
column 0 of the row holds 1. -/
theorem polyfit_inner_row (x : α) (j : Nat) (A : Nat → Nat → α) (h0 : A j 0 = 1) (m : Nat) :
    ∀ i, i ≤ m →
      forLoop 0 m (fun i A => setAt2 A j (i + 1) (A j i * x)) A j i = x ^ i := by
  induction m with
  | zero =>
    intro i hi
    have hi0 : i = 0 := by omega
    subst hi0
    rw [forLoop_empty _ _ _ _ (Nat.le_refl 0), h0, pow_zero]
  | succ k ih =>
    intro i hi
    rw [forLoop_succ _ _ _ _ (Nat.zero_le k)]
    by_cases hik : i = k + 1
    · subst hik
      rw [setAt2_apply, if_pos ⟨rfl, rfl⟩, ih k (Nat.le_refl k), pow_succ]
    · have hne : ¬ (j = j ∧ i = k + 1) := fun h => hik h.2
      rw [setAt2_apply, if_neg hne]
      exact ih i (by omega)

/-- The matrix of `polyfit`: row `j` holds the powers `x_j^0 .. x_j^order`. -/
theorem polyfit_A_apply (xvals : List α) (m j i : Nat) (hj : j < xvals.length) (hi : i ≤ m) :
    polyfit.A xvals (m : Int) j i = (xvals.getD j 0) ^ i := by
  have hfirst : ∀ j2, j2 < xvals.length →
      forLoop 0 xvals.length (fun i A => setAt2 A i 0 (1.0 : α))
        (fun _ _ => (0 : α)) j2 0 = 1 := by
    intro j2 hj2
    rw [forLoop_writes (fun B : Nat → Nat → α => B j2 0) 0 xvals.length _ _ j2 (1.0 : α)
      (Nat.zero_le _) hj2 (fun u => by simp [setAt2])
      (fun t _ _ hne u => by simp [setAt2, Ne.symm hne])]
    norm_num
  have houter : ∀ k, k ≤ xvals.length → ∀ j2, j2 < xvals.length →
      forLoop 0 k
        (fun j A => forLoop 0 m (fun i A => setAt2 A j (i + 1) (A j i * xvals.getD j 0)) A)
        (forLoop 0 xvals.length (fun i A => setAt2 A i 0 (1.0 : α)) (fun _ _ => (0 : α)))
        j2 0 = 1 ∧
      (j2 < k → ∀ i2, i2 ≤ m →
        forLoop 0 k
          (fun j A => forLoop 0 m (fun i A => setAt2 A j (i + 1) (A j i * xvals.getD j 0)) A)
          (forLoop 0 xvals.length (fun i A => setAt2 A i 0 (1.0 : α)) (fun _ _ => (0 : α)))
          j2 i2 = (xvals.getD j2 0) ^ i2) := by
    intro k
    induction k with
    | zero =>
      intro _ j2 hj2
      rw [forLoop_empty _ _ _ _ (Nat.le_refl 0)]
      exact ⟨hfirst j2 hj2, fun h => absurd h (Nat.not_lt_zero _)⟩
    | succ k ih =>
      intro hk j2 hj2
      rw [forLoop_succ _ _ _ _ (Nat.zero_le k)]
      have ihk := ih (by omega)
      refine ⟨?_, ?_⟩
      · rw [polyfit_inner_zero]
        exact (ihk j2 hj2).1
      · intro hlt i2 hi2
        by_cases hjk : j2 = k
        · subst hjk
          exact polyfit_inner_row _ _ _ (ihk j2 hj2).1 m i2 hi2
        · rw [polyfit_inner_other _ _ _ _ _ _ hjk]
          exact (ihk j2 hj2).2 (by omega) i2 hi2
  have h := (houter xvals.length (Nat.le_refl _) j hj).2 hj i hi
  simpa [polyfit.A] using h

end Design

/-- A cubic that vanishes at four distinct points has zero coefficients. -/
theorem cubic_zero_of_four_roots (e0 e1 e2 e3 a b c d : ℝ)
    (hab : a ≠ b) (hac : a ≠ c) (had : a ≠ d) (hbc : b ≠ c) (hbd : b ≠ d) (hcd : c ≠ d)
    (ha : e0 + e1 * a + e2 * a ^ 2 + e3 * a ^ 3 = 0)
    (hb : e0 + e1 * b + e2 * b ^ 2 + e3 * b ^ 3 = 0)
    (hc : e0 + e1 * c + e2 * c ^ 2 + e3 * c ^ 3 = 0)
    (hd : e0 + e1 * d + e2 * d ^ 2 + e3 * d ^ 3 = 0) :
    e0 = 0 ∧ e1 = 0 ∧ e2 = 0 ∧ e3 = 0 := by
  have hP : (Polynomial.C e3 * Polynomial.X ^ 3 + Polynomial.C e2 * Polynomial.X ^ 2
      + Polynomial.C e1 * Polynomial.X + Polynomial.C e0 : Polynomial ℝ) = 0 := by
    apply Polynomial.eq_zero_of_degree_lt_of_eval_finset_eq_zero ({a, b, c, d} : Finset ℝ)
    · have hcard : ({a, b, c, d} : Finset ℝ).card = 4 := by
        rw [Finset.card_insert_of_not_mem, Finset.card_insert_of_not_mem,
          Finset.card_insert_of_not_mem, Finset.card_singleton]
        · simpa using hcd
        · simp [hbc, hbd]
        · simp [hab, hac, had]
      rw [hcard]
      exact lt_of_le_of_lt Polynomial.degree_cubic_le (by norm_num)
    · intro x hx
      simp only [Finset.mem_insert, Finset.mem_singleton] at hx
      simp only [Polynomial.eval_add, Polynomial.eval_mul, Polynomial.eval_C,
        Polynomial.eval_pow, Polynomial.eval_X]
      rcases hx with h | h | h | h <;> subst h <;> linarith
  have h0 := congrArg (fun p => Polynomial.coeff p 0) hP
  have h1 := congrArg (fun p => Polynomial.coeff p 1) hP
  have h2 := congrArg (fun p => Polynomial.coeff p 2) hP
  have h3 := congrArg (fun p => Polynomial.coeff p 3) hP
  simp [Polynomial.coeff_X, Polynomial.coeff_C] at h0 h1 h2 h3
  exact ⟨h0, h1, h2, h3⟩

/-- A member of a list is one of its entries. -/
theorem exists_getD_of_mem (xs : List ℝ) (a : ℝ) (h : a ∈ xs) :
    ∃ j, j < xs.length ∧ xs.getD j 0 = a := by
  obtain ⟨j, hj, e⟩ := List.mem_iff_getElem.mp h
  exact ⟨j, hj, by rw [List.getD_eq_getElem _ _ hj, e]⟩

/-- A row of the cubic system times a vector of four coefficients. -/
theorem polyfit_row_sum (xs : List ℝ) (c0 c1 c2 c3 : ℝ) (j : ℕ) (hj : j < xs.length) :
    (∑ i in Finset.range 4, polyfit.A xs 3 j i * [c0, c1, c2, c3].getD i 0) =
      c0 + c1 * xs.getD j 0 + c2 * xs.getD j 0 ^ 2 + c3 * xs.getD j 0 ^ 3 := by
  have hA : ∀ i, i ≤ 3 → polyfit.A xs 3 j i = xs.getD j 0 ^ i :=
    fun i hi => polyfit_A_apply xs 3 j i hj hi
  simp only [Finset.sum_range_succ, Finset.sum_range_zero, hA 0 (by omega), hA 1 (by omega),
    hA 2 (by omega), hA 3 (by omega), List.getD_cons_zero, List.getD_cons_succ]
  ring

/-- A least-squares solution of the cubic system of points that lie on a
cubic, with four distinct x-values among them, is the coefficient vector of
the cubic. -/
theorem leastSquares_unique (solve : ℕ → ℕ → (ℕ → ℕ → ℝ) → List ℝ → List ℝ)
    (xs ys : List ℝ) (k0 k1 k2 k3 : ℝ)
    (hon : ∀ j, j < xs.length → ys.getD j 0 =
      k0 + k1 * xs.getD j 0 + k2 * xs.getD j 0 ^ 2 + k3 * xs.getD j 0 ^ 3)
    (hd : FourDistinct xs)
    (hLS : IsLeastSquares solve xs.length 4 (polyfit.A xs 3) ys) :
    solve xs.length 4 (polyfit.A xs 3) ys = [k0, k1, k2, k3] := by
  obtain ⟨hlen4, hmin⟩ := hLS
  obtain ⟨c0, c1, c2, c3, hc⟩ : ∃ c0 c1 c2 c3,
      solve xs.length 4 (polyfit.A xs 3) ys = [c0, c1, c2, c3] := by
    match hsol : solve xs.length 4 (polyfit.A xs 3) ys, hlen4 with
    | [c0, c1, c2, c3], _ => exact ⟨c0, c1, c2, c3, rfl⟩
  rw [hc] at hmin ⊢
  have hk : sqResidual xs.length 4 (polyfit.A xs 3) ys [k0, k1, k2, k3] = 0 := by
    unfold sqResidual
    apply Finset.sum_eq_zero
    intro j hj
    rw [polyfit_row_sum xs k0 k1 k2 k3 j (Finset.mem_range.mp hj),
      hon j (Finset.mem_range.mp hj), sub_self]
    norm_num
  have hle := hmin [k0, k1, k2, k3] rfl
  rw [hk] at hle
  have hrows : ∀ j, j < xs.length →
      c0 + c1 * xs.getD j 0 + c2 * xs.getD j 0 ^ 2 + c3 * xs.getD j 0 ^ 3 = ys.getD j 0 := by
    intro j hj
    have hzero : sqResidual xs.length 4 (polyfit.A xs 3) ys [c0, c1, c2, c3] = 0 :=
      le_antisymm hle (Finset.sum_nonneg (fun _ _ => sq_nonneg _))
    unfold sqResidual at hzero
    have ht := (Finset.sum_eq_zero_iff_of_nonneg (fun _ _ => sq_nonneg _)).mp hzero j
      (Finset.mem_range.mpr hj)
    rw [polyfit_row_sum xs c0 c1 c2 c3 j hj] at ht
    have := pow_eq_zero_iff (two_ne_zero) |>.mp ht
    linarith
  obtain ⟨a, b, c, d, ha, hb, hcm, hdm, hab, hac, had, hbc, hbd, hcd⟩ := hd
  have hroot : ∀ r, r ∈ xs →
      (c0 - k0) + (c1 - k1) * r + (c2 - k2) * r ^ 2 + (c3 - k3) * r ^ 3 = 0 := by
    intro r hr
    obtain ⟨j, hj, e⟩ := exists_getD_of_mem xs r hr
    have h1 := hrows j hj
    have h2 := hon j hj
    rw [e] at h1 h2
    linarith
  obtain ⟨z0, z1, z2, z3⟩ := cubic_zero_of_four_roots (c0 - k0) (c1 - k1) (c2 - k2) (c3 - k3)
    a b c d hab hac had hbc hbd hcd (hroot a ha) (hroot b hb) (hroot c hcm) (hroot d hdm)
  rw [sub_eq_zero.mp z0, sub_eq_zero.mp z1, sub_eq_zero.mp z2, sub_eq_zero.mp z3]

/-- With the solve a least-squares solution, the cubic fit of points on a
cubic with four distinct x-values passes its assertions and returns the
coefficients of the cubic. -/
theorem polyfit_of_leastSquares (solve : ℕ → ℕ → (ℕ → ℕ → ℝ) → List ℝ → List ℝ)
    (xs ys : List ℝ) (k0 k1 k2 k3 : ℝ)
    (hlen : xs.length = ys.length) (h4 : 4 ≤ xs.length)
    (hon : ∀ j, j < xs.length → ys.getD j 0 =
      k0 + k1 * xs.getD j 0 + k2 * xs.getD j 0 ^ 2 + k3 * xs.getD j 0 ^ 3)
    (hd : FourDistinct xs)
    (hLS : IsLeastSquares solve xs.length 4 (polyfit.A xs 3) ys) :
    polyfit solve xs ys 3 = some [k0, k1, k2, k3] := by
  have hord : (3 : ℤ) ≥ 1 ∧ (3 : ℤ) ≤ (xs.length : ℤ) - 1 := by omega
  have h31 : ((3 : ℤ) + 1).toNat = 4 := rfl
  unfold polyfit
  rw [if_pos hlen, if_pos hord]
  simp only [h31]
  rw [leastSquares_unique solve xs ys k0 k1 k2 k3 hon hd hLS]

/-- C13 (as amended): for every list of at least 4 points that lie exactly on
a cubic `y = k0 + k1*x + k2*x^2 + k3*x^3` and have four distinct x-values among
them, `polyfit(xvals, yvals, 3)` returns `(k0, k1, k2, k3)`, the solve being a
least-squares solution of the system whose row `j` is `(1, x_j, x_j^2,
x_j^3)`. -/
theorem polyfit_recovers_cubic (solve : ℕ → ℕ → (ℕ → ℕ → ℝ) → List ℝ → List ℝ)
    (xs ys : List ℝ) (k0 k1 k2 k3 : ℝ)
    (hlen : xs.length = ys.length) (h4 : 4 ≤ xs.length)
    (hon : ∀ j, j < xs.length → ys.getD j 0 =
      k0 + k1 * xs.getD j 0 + k2 * xs.getD j 0 ^ 2 + k3 * xs.getD j 0 ^ 3)
    (hd : FourDistinct xs)
    (hLS : IsLeastSquares solve xs.length 4 (polyfit.A xs 3) ys) :
    polyfit solve xs ys 3 = some [k0, k1, k2, k3] ∧
    ∀ j i, j < xs.length → i ≤ 3 → polyfit.A xs 3 j i = xs.getD j 0 ^ i :=
  ⟨polyfit_of_leastSquares solve xs ys k0 k1 k2 k3 hlen h4 hon hd hLS,
   fun j i hj hi => polyfit_A_apply xs 3 j i hj hi⟩

/-- C13, witness: the four points of `1 + 2x + 3x^2 + 4x^3` at `x = 0, 1, 2,
3`, and a solve that returns `(1, 2, 3, 4)`, which leaves no residual. -/
theorem polyfit_recovers_cubic_witness :
    polyfit (fun _ _ _ _ => [1, 2, 3, 4]) [0, 1, 2, 3] [1, 10, 49, (142 : ℝ)] 3
      = some [1, 2, 3, 4] ∧
    ∀ j i, j < ([0, 1, 2, 3] : List ℝ).length → i ≤ 3 →
      polyfit.A ([0, 1, 2, 3] : List ℝ) 3 j i = ([0, 1, 2, 3] : List ℝ).getD j 0 ^ i :=
  polyfit_recovers_cubic (fun _ _ _ _ => [1, 2, 3, 4]) [0, 1, 2, 3] [1, 10, 49, 142] 1 2 3 4
    rfl (by decide)
    (by
      intro j hj
      simp only [List.length_cons, List.length_nil] at hj
      interval_cases j <;> norm_num)
    ⟨0, 1, 2, 3, by simp, by simp, by simp, by simp, by norm_num, by norm_num, by norm_num,
      by norm_num, by norm_num, by norm_num⟩
    ⟨rfl, fun c _ => by
      have hz : sqResidual ([0, 1, 2, 3] : List ℝ).length 4
          (polyfit.A ([0, 1, 2, 3] : List ℝ) 3)
          ([1, 10, 49, 142] : List ℝ) ([1, 2, 3, 4] : List ℝ) = 0 := by
        unfold sqResidual
        apply Finset.sum_eq_zero
        intro j hj
        rw [polyfit_row_sum _ 1 2 3 4 j (Finset.mem_range.mp hj)]
        have hj2 := Finset.mem_range.mp hj
        simp only [List.length_cons, List.length_nil] at hj2
        interval_cases j <;> norm_num
      rw [hz]
      exact Finset.sum_nonneg (fun _ _ => sq_nonneg _)⟩

/-- C13, counterexample: four points at the same place `(0, 0)` lie on the
cubic `y = x`, and the solve that returns the zero vector is a least-squares
solution of their system, but `polyfit` does not return `(0, 1, 0, 0)`. -/
theorem polyfit_repeated_points :
    4 ≤ ([0, 0, 0, 0] : List ℝ).length ∧
    (∀ j, j < ([0, 0, 0, 0] : List ℝ).length → ([0, 0, 0, 0] : List ℝ).getD j 0 =
      0 + 1 * ([0, 0, 0, 0] : List ℝ).getD j 0 + 0 * ([0, 0, 0, 0] : List ℝ).getD j 0 ^ 2
        + 0 * ([0, 0, 0, 0] : List ℝ).getD j 0 ^ 3) ∧
    IsLeastSquares (fun _ _ _ _ => ([0, 0, 0, 0] : List ℝ)) 4 4
      (polyfit.A ([0, 0, 0, 0] : List ℝ) 3) [0, 0, 0, 0] ∧
    polyfit (fun _ _ _ _ => ([0, 0, 0, 0] : List ℝ)) [0, 0, 0, 0] [0, 0, 0, 0] 3
      ≠ some [0, 1, 0, 0] := by
  refine ⟨by decide, ?_, ⟨rfl, fun c _ => ?_⟩, ?_⟩
  · intro j hj
    simp only [List.length_cons, List.length_nil] at hj
    interval_cases j <;> norm_num
  · have hz : sqResidual 4 4 (polyfit.A ([0, 0, 0, 0] : List ℝ) 3) [0, 0, 0, 0]
        [0, 0, 0, 0] = 0 := by
      unfold sqResidual
      apply Finset.sum_eq_zero
      intro j hj
      have hj2 := Finset.mem_range.mp hj
      rw [polyfit_row_sum _ 0 0 0 0 j (by simpa using hj2)]
      interval_cases j <;> norm_num
    rw [hz]
    exact Finset.sum_nonneg (fun _ _ => sq_nonneg _)
  · have hord : (3 : ℤ) ≥ 1 ∧ (3 : ℤ) ≤ (([0, 0, 0, 0] : List ℝ).length : ℤ) - 1 := by
      simp
    unfold polyfit
    rw [if_pos rfl, if_pos hord]
    norm_num

/-! ## Theorems: the control cycle -/

/-- A loop keeps what every iteration keeps. -/
theorem forLoop_invariant {σ : Type} (P : Nat → σ → Prop) (lo hi : Nat)
    (body : Nat → σ → σ) (s : σ) (hle : lo ≤ hi) (h0 : P lo s)
    (hstep : ∀ t u, lo ≤ t → t < hi → P t u → P (t + 1) (body t u)) :
    P hi (forLoop lo hi body s) := by
  induction hi with
  | zero =>
    have : lo = 0 := by omega
    subst this
    rw [forLoop_empty _ _ _ _ (Nat.le_refl 0)]
    exact h0
  | succ k ih =>
    rcases Nat.eq_or_lt_of_le hle with e | e
    · subst e
      rw [forLoop_empty _ _ _ _ (Nat.le_refl _)]
      exact h0
    · have hk : lo ≤ k := by omega
      rw [forLoop_succ _ _ _ _ hk]
      exact hstep k _ hk (by omega) (ih hk (fun t u a b c => hstep t u a (by omega) c))

/-- The waypoints in the coordinates of the car: as many as the message has,
each the transform of the matching waypoint of the message. -/
theorem waypoints_apply {α : Type} [Field α] (cos sin : α → α) (ptsx ptsy : List α)
    (px py psi : α) (hlen : ptsx.length = ptsy.length) :
    (onMessage.waypoints cos sin ptsx ptsy px py psi).1.length = ptsx.length ∧
    (onMessage.waypoints cos sin ptsx ptsy px py psi).2.length = ptsx.length ∧
    ∀ i, i < ptsx.length →
      (onMessage.waypoints cos sin ptsx ptsy px py psi).1.getD i 0 =
        (transformToCar cos sin (ptsx.getD i 0) (ptsy.getD i 0) px py psi).1 ∧
      (onMessage.waypoints cos sin ptsx ptsy px py psi).2.getD i 0 =
        (transformToCar cos sin (ptsx.getD i 0) (ptsy.getD i 0) px py psi).2 := by
  have key := forLoop_invariant
    (fun k (s : List α × List α) => s.1.length = ptsx.length ∧ s.2.length = ptsx.length ∧
      ∀ i, i < k →
        s.1.getD i 0 = (transformToCar cos sin (ptsx.getD i 0) (ptsy.getD i 0) px py psi).1 ∧
        s.2.getD i 0 = (transformToCar cos sin (ptsx.getD i 0) (ptsy.getD i 0) px py psi).2)
    0 ptsx.length
    (fun i vpts =>
      let p := transformToCar cos sin (ptsx.getD i 0) (ptsy.getD i 0) px py psi
      (vpts.1.set i p.1, vpts.2.set i p.2))
    (List.replicate ptsx.length 0, List.replicate ptsy.length 0) (Nat.zero_le _)
    ⟨by simp, by simp [hlen], fun i hi => absurd hi (Nat.not_lt_zero _)⟩
    (by
      intro t u _ ht ⟨h1, h2, h3⟩
      refine ⟨by simp [h1], by simp [h2], ?_⟩
      intro i hi
      by_cases hit : i = t
      · subst hit
        simp [List.getD_eq_getElem?_getD, List.getElem?_set, h1, h2, ht]
      · have hlt : i < t := by omega
        have hne : ¬ (t = i) := fun h => hit h.symm
        simpa [List.getD_eq_getElem?_getD, List.getElem?_set, hne] using h3 i hlt)
  exact key

/-- C18 (as amended): for every telemetry with at least 4 waypoints that all
lie on the heading line of the vehicle (y = 0 in the vehicle frame), with four
distinct x-values in the vehicle frame among them, and the solve a
least-squares solution of the cubic system, the cubic fit of the control
cycle succeeds with all four coefficients 0, the initial state is `(0, 0, 0,
v, 0, 0)`, so `cte = 0` and `epsi = 0`, and the target speed `Solve` computes
is `max_v`. -/
theorem straight_track (solve : ℕ → ℕ → (ℕ → ℕ → ℝ) → List ℝ → List ℝ)
    (solver : Problem ℝ → solve_result ℝ) (ptsx ptsy : List ℝ) (px py psi v : ℝ)
    (hlen : ptsx.length = ptsy.length) (h4 : 4 ≤ ptsx.length)
    (hline : ∀ i, i < ptsx.length →
      (transformToCar Real.cos Real.sin (ptsx.getD i 0) (ptsy.getD i 0) px py psi).2 = 0)
    (hd : FourDistinct (onMessage.waypoints Real.cos Real.sin ptsx ptsy px py psi).1)
    (hLS : IsLeastSquares solve
      (onMessage.waypoints Real.cos Real.sin ptsx ptsy px py psi).1.length 4
      (polyfit.A (onMessage.waypoints Real.cos Real.sin ptsx ptsy px py psi).1 3)
      (onMessage.waypoints Real.cos Real.sin ptsx ptsy px py psi).2) :
    ∃ out, onMessage.telemetry Real.cos Real.sin Real.arctan Real.pi solve solver
        ptsx ptsy px py psi v = some out ∧
      out.coeffs = [0, 0, 0, 0] ∧ out.state = [0, 0, 0, v, 0, 0] ∧
      out.solved.ref_v = max_v ℝ := by
  obtain ⟨hl1, hl2, hent⟩ := waypoints_apply Real.cos Real.sin ptsx ptsy px py psi hlen
  have hfit : polyfit solve (onMessage.waypoints Real.cos Real.sin ptsx ptsy px py psi).1
      (onMessage.waypoints Real.cos Real.sin ptsx ptsy px py psi).2 3 = some [0, 0, 0, 0] := by
    apply polyfit_of_leastSquares solve _ _ 0 0 0 0 (by rw [hl1, hl2]) (by rw [hl1]; exact h4)
      _ hd hLS
    intro j hj
    rw [hl1] at hj
    rw [(hent j hj).2, hline j hj]
    ring
  simp only [onMessage.telemetry, hfit]
  refine ⟨_, rfl, rfl, ?_, ?_⟩
  · norm_num
  · simp [Solve, Solve.ref_v]

/-- C18, witness: the four waypoints `(10, 0)`, `(20, 0)`, `(30, 0)`,
`(40, 0)`, the pose `(0, 0, 0)` and the speed 50, with a solve that returns
the zero vector. -/
theorem straight_track_witness :
    ∃ out, onMessage.telemetry Real.cos Real.sin Real.arctan Real.pi
        (fun _ _ _ _ => [0, 0, 0, 0]) (fun p => ⟨status_type.success, p.vars, 0⟩)
        [10, 20, 30, 40] [0, 0, 0, 0] 0 0 0 50 = some out ∧
      out.coeffs = [0, 0, 0, 0] ∧ out.state = [0, 0, 0, 50, 0, 0] ∧
      out.solved.ref_v = max_v ℝ := by
  have hW : onMessage.waypoints Real.cos Real.sin [10, 20, 30, 40] [0, 0, 0, 0]
      (0 : ℝ) 0 0 = ([10, 20, 30, 40], [0, 0, 0, 0]) := by
    simp [onMessage.waypoints, forLoop, List.range', transformToCar]
  exact straight_track (fun _ _ _ _ => [0, 0, 0, 0])
    (fun p => ⟨status_type.success, p.vars, 0⟩) [10, 20, 30, 40] [0, 0, 0, 0] 0 0 0 50
    rfl (by decide)
    (by
      intro i hi
      simp only [List.length_cons, List.length_nil] at hi
      interval_cases i <;> simp [transformToCar])
    (by
      rw [hW]
      exact ⟨10, 20, 30, 40, by simp, by simp, by simp, by simp, by norm_num, by norm_num,
        by norm_num, by norm_num, by norm_num, by norm_num⟩)
    (by
      rw [hW]
      refine ⟨rfl, fun c _ => ?_⟩
      have hz : sqResidual ([10, 20, 30, 40] : List ℝ).length 4
          (polyfit.A ([10, 20, 30, 40] : List ℝ) 3) ([0, 0, 0, 0] : List ℝ)
          ([0, 0, 0, 0] : List ℝ) = 0 := by
        unfold sqResidual
        apply Finset.sum_eq_zero
        intro j hj
        have hj2 := Finset.mem_range.mp hj
        rw [polyfit_row_sum _ 0 0 0 0 j hj2]
        simp only [List.length_cons, List.length_nil] at hj2
        interval_cases j <;> norm_num
      rw [hz]
      exact Finset.sum_nonneg (fun _ _ => sq_nonneg _))

/-- C18, counterexample: with the three waypoints `ptsx = [10, 20, 30]`,
`ptsy = [0, 0, 0]`, the pose `(0, 0, 0)` and the speed 50, the assertion
`order <= xvals.size() - 1` of `polyfit` fails for the cubic fit: whatever the
solve and the solver, the control cycle produces no fit and no reply. -/
theorem straight_track_three_waypoints :
    ¬ ∃ (solve : ℕ → ℕ → (ℕ → ℕ → ℝ) → List ℝ → List ℝ)
        (solver : Problem ℝ → solve_result ℝ) (out : CycleOut ℝ),
      onMessage.telemetry Real.cos Real.sin Real.arctan Real.pi solve solver
        [10, 20, 30] [0, 0, 0] 0 0 0 50 = some out := by
  rintro ⟨solve, solver, out, h⟩
  obtain ⟨hl1, hl2, -⟩ := waypoints_apply Real.cos Real.sin [10, 20, 30] [0, 0, 0]
    (0 : ℝ) 0 0 rfl
  have hfit : polyfit solve (onMessage.waypoints Real.cos Real.sin [10, 20, 30] [0, 0, 0]
      (0 : ℝ) 0 0).1 (onMessage.waypoints Real.cos Real.sin [10, 20, 30] [0, 0, 0]
      (0 : ℝ) 0 0).2 3 = none := by
    unfold polyfit
    rw [if_pos (by rw [hl1, hl2]), if_neg (by rw [hl1]; simp)]
  simp only [onMessage.telemetry, hfit] at h
  exact absurd h (by simp)

/-! ## Theorems: the predicted trajectory -/

/-- The state of the loop of lines 190-193 after `m` iterations, from any two
vectors. -/
theorem predicted_loop {α : Type} (x : Nat → α) (steps : Nat) (a b : List α) (m : Nat) :
    forLoop 0 m (fun i (s : List α × List α) => (s.1 ++ [x (0 + i)], s.2 ++ [x (steps + i)]))
      (a, b) =
    (a ++ (List.range m).map (fun i : ℕ => x (0 + i)),
     b ++ (List.range m).map (fun i : ℕ => x (steps + i))) := by
  induction m with
  | zero => rw [forLoop_empty _ _ _ _ (Nat.le_refl 0)]; simp
  | succ k ih =>
    rw [forLoop_succ _ _ _ _ (Nat.zero_le k), ih]
    simp [List.range_succ]

/-- The vectors `mpc_x_vals` and `mpc_y_vals` of the message handler: as many
zeros as the message has waypoints, then the 15 entries of the x block and of
the y block of the solution. -/
theorem predicted_apply {α : Type} [LinearOrderedField α] [FloorRing α]
    (ptsx : List α) (solution : solve_result α) :
    onMessage.predicted ptsx solution =
      (List.replicate ptsx.length 0
          ++ (List.range 15).map (fun t : ℕ => solution.x (x_start N + t)),
       List.replicate ptsx.length 0
          ++ (List.range 15).map (fun t : ℕ => solution.x (y_start N + t))) := by
  simp only [onMessage.predicted]
  rw [predicted_loop, x_start_N, y_start_N]

/-- C21: the telemetry with the four waypoints `(10, 0)` .. `(40, 0)`, pose
`(0, 0, 0)` and speed 50, and a solver whose solution has `i + 1` at entry
`i`: the emitted `mpc_x` and `mpc_y` have 19 entries, four zeros before the 15
predicted values.  For every message and every solution the two vectors start
with as many zeros as there are waypoints. -/
theorem predicted_starts_with_zeros :
    (∃ out, onMessage.telemetry Real.cos Real.sin Real.arctan Real.pi
        (fun _ _ _ _ => [0, 0, 0, 0])
        (fun _ => ⟨status_type.success, fun i : ℕ => (i : ℝ) + 1, 0⟩)
        [10, 20, 30, 40] [0, 0, 0, 0] 0 0 0 50 = some out ∧
      out.mpc_x = [0, 0, 0, 0, 1, 2, 3, 4, 5, 6, 7, 8, 9, 10, 11, 12, 13, 14, 15] ∧
      out.mpc_y = [0, 0, 0, 0, 16, 17, 18, 19, 20, 21, 22, 23, 24, 25, 26, 27, 28, 29, 30] ∧
      out.mpc_x.length = 19) ∧
    ∀ (ptsx : List ℝ) (solution : solve_result ℝ),
      onMessage.predicted ptsx solution =
        (List.replicate ptsx.length 0
            ++ (List.range 15).map (fun t : ℕ => solution.x (x_start N + t)),
         List.replicate ptsx.length 0
            ++ (List.range 15).map (fun t : ℕ => solution.x (y_start N + t))) := by
  refine ⟨?_, fun ptsx solution => predicted_apply ptsx solution⟩
  obtain ⟨hl1, hl2, -⟩ := waypoints_apply Real.cos Real.sin [10, 20, 30, 40] [0, 0, 0, 0]
    (0 : ℝ) 0 0 rfl
  have hfit : polyfit (fun _ _ _ _ => ([0, 0, 0, 0] : List ℝ))
      (onMessage.waypoints Real.cos Real.sin [10, 20, 30, 40] [0, 0, 0, 0] (0 : ℝ) 0 0).1
      (onMessage.waypoints Real.cos Real.sin [10, 20, 30, 40] [0, 0, 0, 0] (0 : ℝ) 0 0).2 3
      = some [0, 0, 0, 0] := by
    unfold polyfit
    rw [if_pos (by rw [hl1, hl2]), if_pos (by rw [hl1]; simp)]
  simp only [onMessage.telemetry, hfit]
  refine ⟨_, rfl, ?_, ?_, ?_⟩
  · simp only [predicted_apply, Solve, x_start_N]
    norm_num [List.range_succ, List.replicate]
  · simp only [predicted_apply, Solve, y_start_N]
    norm_num [List.range_succ, List.replicate]
  · simp only [predicted_apply, Solve, x_start_N]
    simp

/-! ## Theorems: `hasData` -/

/-- What `firstFrom` finds is in the range, satisfies the test, and is the
least such position. -/
theorem firstFrom_some (p : Nat → Bool) (k lo i : Nat) (h : firstFrom p lo k = some i) :
    lo ≤ i ∧ i < lo + k ∧ p i = true ∧ ∀ j, lo ≤ j → j < i → p j = false := by
  induction k generalizing lo with
  | zero => simp [firstFrom] at h
  | succ k ih =>
    unfold firstFrom at h
    by_cases hp : p lo = true
    · rw [if_pos hp] at h
      have e : lo = i := Option.some.inj h
      subst e
      exact ⟨Nat.le_refl _, by omega, hp, fun j h1 h2 => by omega⟩
    · rw [if_neg hp] at h
      obtain ⟨h1, h2, h3, h4⟩ := ih (lo + 1) h
      refine ⟨by omega, by omega, h3, fun j hj1 hj2 => ?_⟩
      rcases Nat.eq_or_lt_of_le hj1 with e | e
      · subst e; simpa using hp
      · exact h4 j e hj2

/-- When `firstFrom` finds nothing, the test fails on the whole range. -/
theorem firstFrom_none (p : Nat → Bool) (k lo : Nat) (h : firstFrom p lo k = none) :
    ∀ j, lo ≤ j → j < lo + k → p j = false := by
  induction k generalizing lo with
  | zero => intro j h1 h2; omega
  | succ k ih =>
    unfold firstFrom at h
    by_cases hp : p lo = true
    · rw [if_pos hp] at h; exact absurd h (by simp)
    · rw [if_neg hp] at h
      intro j hj1 hj2
      rcases Nat.eq_or_lt_of_le hj1 with e | e
      · subst e; simpa using hp
      · exact ih (lo + 1) h j e (by omega)

/-- What `lastBelow` finds is below the bound, satisfies the test, and is the
largest such position. -/
theorem lastBelow_some (p : Nat → Bool) (n i : Nat) (h : lastBelow p n = some i) :
    i < n ∧ p i = true ∧ ∀ j, i < j → j < n → p j = false := by
  induction n with
  | zero => simp [lastBelow] at h
  | succ n ih =>
    unfold lastBelow at h
    by_cases hp : p n = true
    · rw [if_pos hp] at h
      have e : n = i := Option.some.inj h
      subst e
      exact ⟨by omega, hp, fun j h1 h2 => by omega⟩
    · rw [if_neg hp] at h
      obtain ⟨h1, h2, h3⟩ := ih h
      refine ⟨by omega, h2, fun j hj1 hj2 => ?_⟩
      rcases Nat.eq_or_lt_of_le (Nat.le_of_lt_succ hj2) with e | e
      · subst e; simpa using hp
      · exact h3 j hj1 e

/-- When `lastBelow` finds nothing, the test fails below the bound. -/
theorem lastBelow_none (p : Nat → Bool) (n : Nat) (h : lastBelow p n = none) :
    ∀ j, j < n → p j = false := by
  induction n with
  | zero => intro j hj; omega
  | succ n ih =>
    unfold lastBelow at h
    by_cases hp : p n = true
    · rw [if_pos hp] at h; exact absurd h (by simp)
    · rw [if_neg hp] at h
      intro j hj
      rcases Nat.eq_or_lt_of_le (Nat.le_of_lt_succ hj) with e | e
      · subst e; simpa using hp
      · exact ih h j e

/-- For a string shorter than `npos`, `s.find(pat)` differs from `npos`
exactly when `pat` occurs in `s`. -/
theorem find_ne_npos_iff (s pat : List Char) (hs : s.length < 9223372036854775808) :
    find s pat ≠ npos ↔ ∃ i, i ≤ s.length ∧ occursAt s pat i = true := by
  unfold find
  cases h : firstFrom (occursAt s pat) 0 (s.length + 1) with
  | none =>
    simp only [ne_eq, not_true_eq_false, false_iff, not_exists, not_and]
    intro i hi
    have := firstFrom_none _ _ _ h i (Nat.zero_le _) (by omega)
    simp [this]
  | some i =>
    obtain ⟨-, h2, h3, -⟩ := firstFrom_some _ _ _ _ h
    simp only [npos]
    exact ⟨fun _ => ⟨i, by omega, h3⟩, fun _ => by omega⟩

/-- For a string shorter than `npos`, `s.rfind(pat)` differs from `npos`
exactly when `pat` occurs in `s`. -/
theorem rfind_ne_npos_iff (s pat : List Char) (hs : s.length < 9223372036854775808) :
    rfind s pat ≠ npos ↔ ∃ i, i ≤ s.length ∧ occursAt s pat i = true := by
  unfold rfind
  cases h : lastBelow (occursAt s pat) (s.length + 1) with
  | none =>
    simp only [ne_eq, not_true_eq_false, false_iff, not_exists, not_and]
    intro i hi
    have := lastBelow_none _ _ h i (by omega)
    simp [this]
  | some i =>
    obtain ⟨h2, h3, -⟩ := lastBelow_some _ _ _ h
    simp only [npos]
    exact ⟨fun _ => ⟨i, by omega, h3⟩, fun _ => by omega⟩

/-- For a string shorter than `npos`, `s.find_first_of(chars)` differs from
`npos` exactly when a character of `chars` is in `s`. -/
theorem find_first_of_ne_npos_iff (s chars : List Char)
    (hs : s.length < 9223372036854775808) :
    find_first_of s chars ≠ npos ↔ ∃ c, c ∈ s ∧ c ∈ chars := by
  unfold find_first_of
  cases h : firstFrom (fun i => decide (∃ c ∈ s.get? i, c ∈ chars)) 0 s.length with
  | none =>
    simp only [ne_eq, not_true_eq_false, false_iff, not_exists, not_and]
    intro c hc hcc
    obtain ⟨i, hi, e⟩ := List.mem_iff_getElem.mp hc
    have := firstFrom_none _ _ _ h i (Nat.zero_le _) (by omega)
    simp only [decide_eq_false_iff_not, not_exists, not_and] at this
    exact this c (by simp [List.get?_eq_getElem?, List.getElem?_eq_getElem hi, e]) hcc
  | some i =>
    obtain ⟨-, h2, h3, -⟩ := firstFrom_some _ _ _ _ h
    simp only [decide_eq_true_eq] at h3
    obtain ⟨c, hc, hcc⟩ := h3
    simp only [npos]
    refine ⟨fun _ => ⟨c, ?_, hcc⟩, fun _ => by omega⟩
    rw [List.get?_eq_getElem?] at hc
    exact List.getElem?_mem hc

/-- The position `s.find_first_of(chars)` returns, when it is not `npos`, is a
position of `s` that holds a character of `chars`. -/
theorem find_first_of_spec (s chars : List Char) :
    find_first_of s chars = npos ∨
    (find_first_of s chars < s.length ∧
      ∃ c, s[find_first_of s chars]? = some c ∧ c ∈ chars) := by
  unfold find_first_of
  cases h : firstFrom (fun i => decide (∃ c ∈ s.get? i, c ∈ chars)) 0 s.length with
  | none => exact Or.inl rfl
  | some i =>
    obtain ⟨-, h2, h3, -⟩ := firstFrom_some _ _ _ _ h
    simp only [decide_eq_true_eq] at h3
    obtain ⟨c, hc, hcc⟩ := h3
    rw [List.get?_eq_getElem?] at hc
    dsimp only
    exact Or.inr ⟨by omega, c, hc, hcc⟩

/-- The position `s.rfind(pat)` returns, when it is not `npos`, is a position
at which `pat` occurs in `s`. -/
theorem rfind_spec (s pat : List Char) :
    rfind s pat = npos ∨
    (rfind s pat ≤ s.length ∧ (s.drop (rfind s pat)).take pat.length = pat) := by
  unfold rfind
  cases h : lastBelow (occursAt s pat) (s.length + 1) with
  | none => exact Or.inl rfl
  | some i =>
    obtain ⟨h2, h3, -⟩ := lastBelow_some _ _ _ h
    simp only [occursAt, decide_eq_true_eq] at h3
    dsimp only
    exact Or.inr ⟨by omega, h3⟩

/-- What `hasData` does on every string shorter than `2^63`: it returns (the
`substr` does not throw); the result is empty when `find` gives a position for
`null`, or `npos` for `[` or for `}]`; a non-empty result starts with `[`; and
a non-empty result ends with `}]` when the first `[` comes before the last
`}]`. -/
theorem hasData_returns (s : List Char) (hs : s.length < 9223372036854775808) :
    ∃ r, hasData s = some r ∧
      ((find s "null".toList ≠ npos ∨ find_first_of s "[".toList = npos
          ∨ rfind s "\x7d]".toList = npos) → r = []) ∧
      (r ≠ [] → r.take 1 = "[".toList) ∧
      (r ≠ [] → find_first_of s "[".toList < rfind s "\x7d]".toList →
        2 ≤ r.length ∧ r.drop (r.length - 2) = "\x7d]".toList) := by
  unfold hasData
  by_cases hnull : find s "null".toList ≠ npos
  · simp only [hnull, ne_eq, not_false_eq_true, if_true]
    exact ⟨[], rfl, fun _ => rfl, fun h => absurd rfl h, fun h => absurd rfl h⟩
  · rw [if_neg hnull]
    by_cases hb : find_first_of s "[".toList ≠ npos ∧ rfind s "\x7d]".toList ≠ npos
    · rw [if_pos hb]
      obtain ⟨hb1, hb2⟩ := hb
      rcases find_first_of_spec s "[".toList with e | ⟨h1lt, c, hc, hcc⟩
      · exact absurd e hb1
      rcases rfind_spec s "\x7d]".toList with e | ⟨h2le, hocc⟩
      · exact absurd e hb2
      generalize find_first_of s "[".toList = b1 at *
      generalize rfind s "\x7d]".toList = b2 at *
      have hcs : c = '[' := by simpa using hcc
      subst hcs
      have hdrop : s.drop b1 = '[' :: s.drop (b1 + 1) := by
        obtain ⟨hlt, e⟩ := List.getElem?_eq_some.mp hc
        rw [List.drop_eq_getElem_cons hlt, e]
      have hsub : substr s b1 (((b2 + 18446744073709551616 - b1) % 18446744073709551616 + 2)
          % 18446744073709551616) = some ((s.drop b1).take
            (((b2 + 18446744073709551616 - b1) % 18446744073709551616 + 2)
              % 18446744073709551616)) := by
        unfold substr
        rw [if_neg (by omega)]
      rw [hsub]
      refine ⟨_, rfl, ?_, ?_, ?_⟩
      · rintro (h | h | h)
        · exact absurd h hnull
        · exact absurd h hb1
        · exact absurd h hb2
      · intro hne
        rw [hdrop] at hne ⊢
        cases hlen : ((b2 + 18446744073709551616 - b1) % 18446744073709551616 + 2)
            % 18446744073709551616 with
        | zero => rw [hlen] at hne; simp at hne
        | succ l => simp
      · intro _ hlt
        have h2 : ("\x7d]".toList).length = 2 := rfl
        rw [h2] at hocc
        have hb2s : b2 + 2 ≤ s.length := by
          have hl := congrArg List.length hocc
          rw [List.length_take, List.length_drop] at hl
          have : ("\x7d]".toList).length = 2 := rfl
          omega
        have hlen : ((b2 + 18446744073709551616 - b1) % 18446744073709551616 + 2)
            % 18446744073709551616 = b2 - b1 + 2 := by omega
        rw [hlen]
        have hrl : ((s.drop b1).take (b2 - b1 + 2)).length = b2 - b1 + 2 := by
          rw [List.length_take, List.length_drop]; omega
        refine ⟨by omega, ?_⟩
        rw [hrl, show b2 - b1 + 2 - 2 = b2 - b1 by omega, List.drop_take, List.drop_drop,
          show b2 - b1 + 2 - (b2 - b1) = 2 by omega, show b1 + (b2 - b1) = b2 by omega]
        exact hocc
    · rw [if_neg hb]
      exact ⟨[], rfl, fun _ => rfl, fun h => absurd rfl h, fun h => absurd rfl h⟩

/-- The telemetry message of the simulator, which has its first `[` before its
last `}]`: `hasData` returns the text from `[` to `}]`. -/
theorem hasData_returns_example :
    hasData "42[\"telemetry\",\x7b\"x\":1\x7d]".toList =
      some "[\"telemetry\",\x7b\"x\":1\x7d]".toList := by
  decide

/-- C22: the message `42}]xx[abc`, whose last `}]` comes before its first `[`:
`find` gives `npos` for `null`, `b1 = 6` and `b2 = 2`, the length
`b2 - b1 + 2` wraps to `2^64 - 2`, and `hasData` returns `[abc`, a non-empty
string that starts with `[` and does not end with `}]`. -/
theorem hasData_tail_without_close :
    find "42\x7d]xx[abc".toList "null".toList = npos ∧
    find_first_of "42\x7d]xx[abc".toList "[".toList = 6 ∧
    rfind "42\x7d]xx[abc".toList "\x7d]".toList = 2 ∧
    ((2 + 18446744073709551616 - 6) % 18446744073709551616 + 2) % 18446744073709551616
      = 18446744073709551614 ∧
    hasData "42\x7d]xx[abc".toList = some "[abc".toList ∧
    "[abc".toList ≠ [] ∧
    "[abc".toList.take 1 = "[".toList ∧
    "[abc".toList.drop ("[abc".toList.length - 2) ≠ "\x7d]".toList := by
  decide

end MPC
